import Mathlib

/-!
# Verification of the ESBench core against its specification

Shallow embedding of the benchmark harness core, written from the
TypeScript sources: the time measurement worker (`time.ts`), the
profiling context driver (`profiling.ts`), the suite model
(`suite.ts`), the runner entry (`runner.ts`) and the result summary
(`summary.ts`).  Time values are modelled as exact rationals (the code
uses double milliseconds from a monotonic clock); fallible code is
modelled with `Except` / `Option`, and the mutable context state is
threaded explicitly.
-/

namespace ESBench

/-! ## Time worker (`time.ts`, `TimeWorker` and `createInvoker`)

The measurement engine.  A call of the iterate function is modelled by
its elapsed time; successive calls may differ, so the elapsed times are
given as a function of the invocation number.
-/

/-- Sampling loop of `TimeWorker.onCase` (lines 88-92):
`for (i = 0; i < samples; i++) { time = await iterate(count); values.push(time / count); }`.
`iterate` gives the elapsed milliseconds of the n-th call of the iterate
function (calls are numbered globally so that warmup calls consume
numbers first); `callNo` is the number of the next call. -/
def sampleLoop (iterate : Nat → ℚ) (count : Nat) : Nat → Nat → List ℚ → List ℚ
  | 0, _, values => values
  | n + 1, callNo, values =>
    sampleLoop iterate count n (callNo + 1) (values ++ [iterate callNo / (count : ℚ)])

/-- `TimeWorker.onCase` measurement phase (lines 79-92): run the iterate
function `warmup` times discarding the results, then run the sampling
loop; returns the `metrics.time` array. -/
def timeWorkerOnCase (iterate : Nat → ℚ) (warmup samples count : Nat) : List ℚ :=
  sampleLoop iterate count samples warmup []

/-- The per-call formula as the specification words it (§4.4 step 5):
`perCall = elapsed / (count × unrollFactor) − overheadPerCall`. -/
def specPerCall (elapsed : ℚ) (count unrollFactor : Nat) (overhead : ℚ) : ℚ :=
  elapsed / ((count : ℚ) * (unrollFactor : ℚ)) - overhead

/-- Invoker variants produced by `createInvoker` (lines 9-52). -/
inductive InvokerKind
  | noSetup
  | syncWithSetup
  | asyncWithSetup
  deriving DecidableEq, Repr

/-- Variant selection of `createInvoker` (lines 50-51):
`const setup = setupHooks.length && cleanHooks.length;`
`return setup ? isAsync ? asyncWithSetup : syncWithSetup : noSetup;`
JavaScript `a && b` on numbers is truthy exactly when both are non-zero. -/
def createInvokerKind (nSetupHooks nCleanHooks : Nat) (isAsync : Bool) : InvokerKind :=
  if nSetupHooks ≠ 0 ∧ nCleanHooks ≠ 0 then
    if isAsync then .asyncWithSetup else .syncWithSetup
  else
    .noSetup

/-- Observable events of one invoker call: hook executions and workload
executions, tagged with the logical iteration number. -/
inductive InvokeEvent
  | beforeHook (iteration hook : Nat)
  | workload (iteration : Nat)
  | afterHook (iteration hook : Nat)
  deriving DecidableEq, Repr

/-- Trace of `noSetup(count)` (lines 12-20): the workload is run `count`
times and nothing else happens. -/
def noSetupTrace (count : Nat) : List InvokeEvent :=
  (List.range count).map .workload

/-- Trace of one logical iteration of `syncWithSetup` / `asyncWithSetup`
(lines 22-48): before-hooks in order, the workload, after-hooks in order. -/
def withSetupIteration (nSetupHooks nCleanHooks iteration : Nat) : List InvokeEvent :=
  (List.range nSetupHooks).map (.beforeHook iteration) ++
    [.workload iteration] ++
    (List.range nCleanHooks).map (.afterHook iteration)

/-- Trace of `syncWithSetup(count)` / `asyncWithSetup(count)`. -/
def withSetupTrace (nSetupHooks nCleanHooks count : Nat) : List InvokeEvent :=
  (List.range count).flatMap (withSetupIteration nSetupHooks nCleanHooks)

/-- Trace of the invoker returned by `createInvoker`, as selected by
lines 50-51. -/
def invokerTrace (nSetupHooks nCleanHooks : Nat) (isAsync : Bool) (count : Nat) :
    List InvokeEvent :=
  match createInvokerKind nSetupHooks nCleanHooks isAsync with
  | .noSetup => noSetupTrace count
  | .syncWithSetup => withSetupTrace nSetupHooks nCleanHooks count
  | .asyncWithSetup => withSetupTrace nSetupHooks nCleanHooks count

/-- Elapsed time returned by `syncWithSetup` / `asyncWithSetup`
(lines 22-48): `timeUsage` accumulates only the interval around the
workload call, so hook durations are excluded; `work i` is the duration
of the workload in iteration `i`. -/
def withSetupElapsed (work : Nat → ℚ) (count : Nat) : ℚ :=
  (List.range count).foldl (fun acc i => acc + work i) 0

/-- Pilot loop of `TimeWorker.getIterations` (lines 98-104):
`let count = 1; let time = 0; while (time < targetMS) { time = await fn(count); count *= 2; }`.
`measure c` is the elapsed time of a pilot run with `c` iterations;
`counts` records each count that was actually measured (the `Pilot:` log
lines).  The loop is written with explicit fuel; the theorems exhibit a
sufficient fuel. -/
def pilotLoop (measure : Nat → ℚ) (target : ℚ) :
    Nat → Nat → ℚ → List Nat → Nat × ℚ × List Nat
  | 0, count, time, counts => (count, time, counts)
  | fuel + 1, count, time, counts =>
    if time < target then
      pilotLoop measure target fuel (count * 2) (measure count) (counts ++ [count])
    else
      (count, time, counts)

/-- `TimeWorker.getIterations` (lines 95-108): run the pilot loop from
`count = 1, time = 0` and return `Math.ceil(count / 2 * targetMS / time)`. -/
def getIterations (measure : Nat → ℚ) (target : ℚ) (fuel : Nat) : ℤ :=
  let r := pilotLoop measure target fuel 1 0 []
  ⌈((r.1 : ℚ) / 2) * target / r.2.1⌉

/-! ### Lemmas about the sampling loop -/

theorem sampleLoop_closed (iterate : Nat → ℚ) (count : Nat) :
    ∀ (n callNo : Nat) (values : List ℚ),
      sampleLoop iterate count n callNo values =
        values ++ (List.range n).map (fun i => iterate (callNo + i) / (count : ℚ)) := by
  intro n
  induction n with
  | zero => intro callNo values; simp [sampleLoop]
  | succ m ih =>
    intro callNo values
    rw [sampleLoop, ih, List.range_succ_eq_map]
    simp [List.append_assoc, Function.comp, Nat.add_assoc, Nat.add_comm 1]

/-! ### Lemmas about the pilot loop -/

theorem pilotLoop_exit (measure : Nat → ℚ) (target : ℚ) (fuel count : Nat) (time : ℚ)
    (counts : List Nat) (h : ¬ time < target) :
    pilotLoop measure target fuel count time counts = (count, time, counts) := by
  cases fuel with
  | zero => rfl
  | succ f => rw [pilotLoop, if_neg h]

theorem pilotLoop_step (measure : Nat → ℚ) (target : ℚ) (fuel count : Nat) (time : ℚ)
    (counts : List Nat) (h : time < target) :
    pilotLoop measure target (fuel + 1) count time counts =
      pilotLoop measure target fuel (count * 2) (measure count) (counts ++ [count]) := by
  rw [pilotLoop, if_pos h]

/-- The pilot states for a workload of constant per-iteration duration `p`:
from the state reached after `i + 1` doublings, a loop with at least
`k - i` remaining fuel ends in the state of the `k`-th doubling, where
`k` is the first doubling whose elapsed time reaches the target. -/
theorem pilotLoop_linear_aux (p target : ℚ) (k : ℕ)
    (hk : target ≤ ((2 ^ k : ℕ) : ℚ) * p)
    (hmin : ∀ j, j < k → ((2 ^ j : ℕ) : ℚ) * p < target) :
    ∀ fuel, ∀ i, i ≤ k → k - i ≤ fuel →
      pilotLoop (fun c => (c : ℚ) * p) target (fuel + 1)
          (2 ^ (i + 1)) (((2 ^ i : ℕ) : ℚ) * p) ((List.range (i + 1)).map (2 ^ ·)) =
        (2 ^ (k + 1), ((2 ^ k : ℕ) : ℚ) * p, (List.range (k + 1)).map (2 ^ ·)) := by
  intro fuel
  induction fuel with
  | zero =>
    intro i hik hfuel
    have hik' : i = k := by omega
    subst hik'
    exact pilotLoop_exit _ _ _ _ _ _ (not_lt.mpr hk)
  | succ f ih =>
    intro i hik hfuel
    rcases eq_or_lt_of_le hik with rfl | hlt
    · exact pilotLoop_exit _ _ _ _ _ _ (not_lt.mpr hk)
    · rw [pilotLoop_step _ _ _ _ _ _ (hmin i hlt)]
      have h1 : 2 ^ (i + 1) * 2 = 2 ^ (i + 1 + 1) := (pow_succ 2 (i + 1)).symm
      have h2 : ((2 ^ (i + 1) : ℕ) : ℚ) * p = ((2 ^ (i + 1) : ℕ) : ℚ) * p := rfl
      have h3 : (List.range (i + 1)).map (2 ^ ·) ++ [2 ^ (i + 1)] =
          (List.range (i + 1 + 1)).map (2 ^ ·) := by
        rw [List.range_succ (n := i + 1), List.map_append, List.map_singleton]
      rw [h1, h3]
      exact ih (i + 1) hlt (by omega)

/-- **C3.** For every case whose `iterations` option is a duration string,
calibration starts at `count = 1` and doubles the measured count while the
elapsed time is below the target; with a workload of positive constant
per-iteration duration `p` and target `target > 0` it terminates (fuel
`k + 2` suffices, where `k` is the first doubling reaching the target),
the measured counts `1, 2, …, 2^k` increase strictly monotonically, the
last measurement's elapsed time reaches the target, and the returned
iteration count is `⌈(count / 2) · target / elapsedLast⌉` where `count`
is the final value of the loop variable (twice the last measured count)
and `elapsedLast` the elapsed time of the last measurement. -/
theorem timeWorker_getIterations_calibration (p target : ℚ) (k fuel : ℕ)
    (_hp : 0 < p) (ht : 0 < target)
    (hk : target ≤ ((2 ^ k : ℕ) : ℚ) * p)
    (hmin : ∀ j, j < k → ((2 ^ j : ℕ) : ℚ) * p < target)
    (hfuel : k + 2 ≤ fuel) :
    pilotLoop (fun c => (c : ℚ) * p) target fuel 1 0 [] =
        (2 ^ (k + 1), ((2 ^ k : ℕ) : ℚ) * p, (List.range (k + 1)).map (2 ^ ·)) ∧
      List.Pairwise (· < ·) ((List.range (k + 1)).map (2 ^ · : ℕ → ℕ)) ∧
      target ≤ ((2 ^ k : ℕ) : ℚ) * p ∧
      getIterations (fun c => (c : ℚ) * p) target fuel =
        ⌈(((2 ^ (k + 1) : ℕ) : ℚ) / 2) * target / (((2 ^ k : ℕ) : ℚ) * p)⌉ := by
  obtain ⟨f, rfl⟩ : ∃ f, fuel = f + 1 := ⟨fuel - 1, by omega⟩
  have hrun : pilotLoop (fun c => (c : ℚ) * p) target (f + 1) 1 0 [] =
      (2 ^ (k + 1), ((2 ^ k : ℕ) : ℚ) * p, (List.range (k + 1)).map (2 ^ ·)) := by
    rw [pilotLoop_step _ _ _ _ _ _ ht]
    obtain ⟨g, rfl⟩ : ∃ g, f = g + 1 := ⟨f - 1, by omega⟩
    have h1 : (1 : ℕ) * 2 = 2 ^ (0 + 1) := by norm_num
    have h2 : ((1 : ℕ) : ℚ) * p = ((2 ^ 0 : ℕ) : ℚ) * p := by norm_num
    have h3 : ([] : List ℕ) ++ [1] = (List.range (0 + 1)).map (2 ^ ·) := by
      simp [List.range_succ]
    rw [h1, h2, h3]
    exact pilotLoop_linear_aux p target k hk hmin g 0 (Nat.zero_le k) (by omega)
  refine ⟨hrun, ?_, hk, ?_⟩
  · exact List.Pairwise.map _ (fun a b hab => Nat.pow_lt_pow_right one_lt_two hab)
      (List.pairwise_lt_range (k + 1))
  · rw [getIterations, hrun]

/-! ### C1: the recorded per-call times of `TimeWorker.onCase` -/

/-- **C1 (counterexample).** One sample whose elapsed time is 2 ms at
`count = 1`: the recorded value is `2` (the elapsed time divided by the
count alone), while the claimed formula
`elapsed / (count × unrollFactor) − overheadPerCall` — with the
specification's default `unrollFactor = 16` and even the most favourable
overhead estimate `0` — gives `1/8 ≠ 2`.  `TimeWorker` has no unroll
factor and performs no overhead subtraction. -/
theorem timeWorker_perCall_not_spec_formula :
    timeWorkerOnCase (fun _ => 2) 0 1 1 = [2] ∧
      specPerCall 2 1 16 0 = 1 / 8 ∧
      timeWorkerOnCase (fun _ => 2) 0 1 1 ≠ [specPerCall 2 1 16 0] := by
  have h2 : timeWorkerOnCase (fun _ => 2) 0 1 1 = [2] := by
    norm_num [timeWorkerOnCase, sampleLoop]
  refine ⟨h2, by norm_num [specPerCall], ?_⟩
  rw [h2]
  intro h
  simp only [List.cons.injEq, and_true] at h
  norm_num [specPerCall] at h

/-- **C1 (amended).** For every benchmark case and every sample taken by
the time profiler, the recorded per-call time equals the sample's elapsed
milliseconds divided by `count` — that is, the specification's formula
holds only with an unroll factor of 1 and a zero overhead estimate — and
the case's `time` metric is exactly the sequence of these `samples`
values in sampling order (sample `i` uses the elapsed time of the
`warmup + i`-th call of the iterate function). -/
theorem timeWorker_onCase_samples (iterate : Nat → ℚ) (warmup samples count : Nat) :
    timeWorkerOnCase iterate warmup samples count =
      (List.range samples).map (fun i => specPerCall (iterate (warmup + i)) count 1 0) := by
  rw [timeWorkerOnCase, sampleLoop_closed]
  simp [specPerCall]

/-- **C3 (witness).** Per-iteration duration 1 ms, target 3 ms: the pilot
measurements are at counts 1, 2, 4; the loop stops at elapsed 4 ≥ 3 and
`getIterations` returns `⌈(8 / 2) · 3 / 4⌉`. -/
theorem timeWorker_getIterations_calibration_witness :
    pilotLoop (fun c => (c : ℚ) * 1) 3 4 1 0 [] =
        (2 ^ (2 + 1), ((2 ^ 2 : ℕ) : ℚ) * 1, (List.range (2 + 1)).map (2 ^ ·)) ∧
      List.Pairwise (· < ·) ((List.range (2 + 1)).map (2 ^ · : ℕ → ℕ)) ∧
      (3 : ℚ) ≤ ((2 ^ 2 : ℕ) : ℚ) * 1 ∧
      getIterations (fun c => (c : ℚ) * 1) 3 4 =
        ⌈(((2 ^ (2 + 1) : ℕ) : ℚ) / 2) * 3 / (((2 ^ 2 : ℕ) : ℚ) * 1)⌉ :=
  timeWorker_getIterations_calibration 1 3 2 4 (by norm_num) (by norm_num)
    (by norm_num) (by intro j hj; interval_cases j <;> norm_num) (by norm_num)

/-! ### C2: invoker selection for cases with iteration hooks -/

/-- Whether an event is the execution of a before-iteration hook. -/
def isBeforeHookEvent : InvokeEvent → Bool
  | .beforeHook _ _ => true
  | _ => false

/-- **C2 (evaluation at the failing input).** A case with one
before-iteration hook and no after-iteration hooks: because line 50
computes `setupHooks.length && cleanHooks.length`, the selection yields
the no-hook variant, whose measurement trace runs the workload only and
never executes the registered before-hook — although the hooked variant
(shown last) would have run it once per invocation, as the documentation
of `Scene.beforeIteration` promises. -/
theorem createInvoker_oneSidedHooks_selects_noSetup :
    createInvokerKind 1 0 false = InvokerKind.noSetup ∧
      invokerTrace 1 0 false 2 = [InvokeEvent.workload 0, InvokeEvent.workload 1] ∧
      ((invokerTrace 1 0 false 2).all fun e => !isBeforeHookEvent e) = true ∧
      withSetupTrace 1 0 2 = [InvokeEvent.beforeHook 0 0, InvokeEvent.workload 0,
        InvokeEvent.beforeHook 1 0, InvokeEvent.workload 1] := by
  decide

/-! ## Profiling context (`profiling.ts`, `ProfilingContext`)

The driver is embedded as an interpreter threading the context's mutable
state (`scenes`, `notes`, `meta`) plus the trace of profiler hook
invocations.  Profiler behaviour is given as data: what each profiler
does at each lifecycle point (metric descriptors and notes it adds, and
whether it throws).  Errors are JavaScript exceptions, modelled as
numeric codes.
-/

/-- Error codes standing for thrown JavaScript errors. -/
abbrev Err := Nat

/-- A `Note` record (profiling.ts:79-83). -/
structure NoteRec where
  isWarn : Bool
  text : String
  caseId : Option Nat
  deriving DecidableEq, Repr

/-- Metrics of one case: the entries profilers added to the `metrics`
record, in insertion order (key, opaque value). -/
abbrev CaseMetrics := List (String × Nat)

/-- What one profiler's `onCase` hook does for one case: the metric
entries and notes it adds (in order, before any throw), and whether it
then throws. -/
structure CaseBehavior where
  metricsAdd : CaseMetrics
  notesAdd : List NoteRec
  err : Option Err
  deriving DecidableEq, Repr

/-- Behaviour of one profiler over a whole run: `startMeta` are its
`defineMetric` registrations during `onStart`; the `err` fields say
whether the corresponding hook throws (`sceneErr` per scene index,
`caseBeh` per scene and case index). -/
structure ProfilerModel where
  startMeta : List (String × Nat)
  startErr : Option Err
  sceneErr : Nat → Option Err
  caseBeh : Nat → Nat → CaseBehavior
  finishErr : Option Err

/-- One scene produced by the parameter cross-product: the cases its
`setup` registers (names in registration order), whether `setup` throws,
and how many teardown hooks it registers. -/
structure SceneSpec where
  cases : List String
  setupErr : Option Err
  teardownCount : Nat
  deriving DecidableEq, Repr

/-- Observable events of one run: profiler hook invocations
(`p` = profiler registration index, `s` = scene index, `c` = case index)
and the execution of a scene teardown hook. -/
inductive PEvent
  | onStart (p : Nat)
  | onScene (p s : Nat)
  | onCase (p s c : Nat)
  | onFinish (p : Nat)
  | teardown (s i : Nat)
  deriving DecidableEq, Repr

/-- The mutable state of a `ProfilingContext` (profiling.ts:159-185)
plus the hook-invocation trace.  `workingParams` models the
`kWorkingParams` symbol property read by `runSuite`'s catch block:
nothing in `profiling.ts` ever assigns it. -/
structure PContext where
  scenes : List (List (String × CaseMetrics))
  notes : List NoteRec
  meta : List (String × Nat)
  trace : List PEvent
  workingParams : Option String
  deriving DecidableEq, Repr

/-- The state of a freshly constructed context. -/
def PContext.fresh : PContext :=
  { scenes := [], notes := [], meta := [], trace := [], workingParams := none }

/-- `runHooks("onStart")` (profiling.ts:244, 271-276) together with the
`defineMetric` calls made there (profiling.ts:202-204): each profiler in
registration order; a throw stops the loop. -/
def runStartHooks (P : Nat → ProfilerModel) : List Nat → PContext → PContext × Option Err
  | [], ctx => (ctx, none)
  | p :: rest, ctx =>
    let ctx' := { ctx with trace := ctx.trace ++ [.onStart p],
                           meta := ctx.meta ++ (P p).startMeta }
    match (P p).startErr with
    | some e => (ctx', some e)
    | none => runStartHooks P rest ctx'

/-- `runHooks("onScene", scene)` (profiling.ts:255). -/
def runSceneHooks (P : Nat → ProfilerModel) (s : Nat) :
    List Nat → PContext → PContext × Option Err
  | [], ctx => (ctx, none)
  | p :: rest, ctx =>
    let ctx' := { ctx with trace := ctx.trace ++ [.onScene p s] }
    match (P p).sceneErr s with
    | some e => (ctx', some e)
    | none => runSceneHooks P s rest ctx'

/-- `runHooks("onCase", case_, metrics)` (profiling.ts:263): each
profiler appends to the shared `metrics` record and may add notes via
`ctx.note`; a throw stops the loop, keeping everything added so far. -/
def runCaseHooks (P : Nat → ProfilerModel) (s c : Nat) :
    List Nat → PContext → CaseMetrics → PContext × CaseMetrics × Option Err
  | [], ctx, ms => (ctx, ms, none)
  | p :: rest, ctx, ms =>
    let b := (P p).caseBeh s c
    let ctx' := { ctx with trace := ctx.trace ++ [.onCase p s c],
                           notes := ctx.notes ++ b.notesAdd }
    let ms' := ms ++ b.metricsAdd
    match b.err with
    | some e => (ctx', ms', some e)
    | none => runCaseHooks P s c rest ctx' ms'

/-- `results[case_.name] = metrics` (profiling.ts:264): the `results`
record pushed into `this.scenes` before the case loop is the list's last
element, mutated in place. -/
def pushCaseResult (ctx : PContext) (name : String) (ms : CaseMetrics) : PContext :=
  { ctx with scenes := ctx.scenes.dropLast ++ [(ctx.scenes.getLast?.getD []) ++ [(name, ms)]] }

/-- `runHooks("onFinish")` (profiling.ts:248). -/
def runFinishHooks (P : Nat → ProfilerModel) : List Nat → PContext → PContext × Option Err
  | [], ctx => (ctx, none)
  | p :: rest, ctx =>
    let ctx' := { ctx with trace := ctx.trace ++ [.onFinish p] }
    match (P p).finishErr with
    | some e => (ctx', some e)
    | none => runFinishHooks P rest ctx'

/-- The case loop of `runScene` (profiling.ts:260-265), over the scene's
cases paired with their registration indices. -/
def runCases (P : Nat → ProfilerModel) (m s : Nat) :
    List (Nat × String) → PContext → PContext × Option Err
  | [], ctx => (ctx, none)
  | (c, name) :: rest, ctx =>
    match runCaseHooks P s c (List.range m) ctx [] with
    | (ctx', _, some e) => (ctx', some e)
    | (ctx', ms, none) => runCases P m s rest (pushCaseResult ctx' name ms)

/-- `ProfilingContext.runScene` (profiling.ts:251-269):
`setup` runs first, *outside* the try/finally, so its throw propagates
without running teardown hooks; inside the try, the `onScene` hooks run,
then an empty results record is pushed onto `scenes`, then the case
loop; the finally clause runs the scene's teardown hooks
(`runFns(scene.teardownHooks)`) whether or not the body threw. -/
def runScene (P : Nat → ProfilerModel) (m s : Nat) (spec : SceneSpec) (ctx : PContext) :
    PContext × Option Err :=
  match spec.setupErr with
  | some e => (ctx, some e)
  | none =>
    let body :=
      match runSceneHooks P s (List.range m) ctx with
      | (ctxh, some e) => (ctxh, some e)
      | (ctxh, none) =>
        let ctxp := { ctxh with scenes := ctxh.scenes ++ [[]] }
        runCases P m s spec.cases.enum ctxp
    ({ body.1 with trace := body.1.trace ++ (List.range spec.teardownCount).map (.teardown s) },
      body.2)

/-- The scene loop of `ProfilingContext.run` (profiling.ts:245-247),
over scenes paired with their cross-product indices; the first throw
propagates and stops the loop. -/
def runScenes (P : Nat → ProfilerModel) (m : Nat) :
    List (Nat × SceneSpec) → PContext → PContext × Option Err
  | [], ctx => (ctx, none)
  | (s, spec) :: rest, ctx =>
    match runScene P m s spec ctx with
    | (ctx', some e) => (ctx', some e)
    | (ctx', none) => runScenes P m rest ctx'

/-- `ProfilingContext.run` (profiling.ts:237-249): `onStart` hooks, then
each scene in cross-product order, then `onFinish` hooks. -/
def contextRun (P : Nat → ProfilerModel) (m : Nat) (specs : List SceneSpec) :
    PContext × Option Err :=
  match runStartHooks P (List.range m) PContext.fresh with
  | (ctx, some e) => (ctx, some e)
  | (ctx, none) =>
    match runScenes P m specs.enum ctx with
    | (ctx', some e) => (ctx', some e)
    | (ctx', none) => runFinishHooks P (List.range m) ctx'

/-! ### Closed forms of the interpreter loops -/

/-- All `onStart` invocations, in profiler registration order. -/
def startTraceBlock (m : Nat) : List PEvent :=
  (List.range m).map .onStart

/-- All `onFinish` invocations, in profiler registration order. -/
def finishTraceBlock (m : Nat) : List PEvent :=
  (List.range m).map .onFinish

/-- All metric descriptors registered during `onStart`, in profiler
registration order. -/
def startMetaAll (P : Nat → ProfilerModel) (m : Nat) : List (String × Nat) :=
  ((List.range m).map fun p => (P p).startMeta).flatten

/-- The `onCase` invocations for one case, in profiler registration order. -/
def caseTraceBlock (m s c : Nat) : List PEvent :=
  (List.range m).map (.onCase · s c)

/-- The metrics record of one case after all profilers ran. -/
def caseMetricsAll (P : Nat → ProfilerModel) (m s c : Nat) : CaseMetrics :=
  ((List.range m).map fun p => ((P p).caseBeh s c).metricsAdd).flatten

/-- The notes added while processing one case, all profilers in order. -/
def caseNotesAll (P : Nat → ProfilerModel) (m s c : Nat) : List NoteRec :=
  ((List.range m).map fun p => ((P p).caseBeh s c).notesAdd).flatten

/-- Hook events of one failure-free scene: `onScene` for each profiler,
then the `onCase` blocks of its cases in registration order, then its
teardown hooks. -/
def sceneTraceBlock (m s : Nat) (spec : SceneSpec) : List PEvent :=
  (List.range m).map (.onScene · s) ++
    ((List.range spec.cases.length).map fun c => caseTraceBlock m s c).flatten ++
    (List.range spec.teardownCount).map (.teardown s)

/-- The scene result record of a failure-free scene. -/
def sceneResultClean (P : Nat → ProfilerModel) (m s : Nat) (names : List String) :
    List (String × CaseMetrics) :=
  names.enum.map fun cn => (cn.2, caseMetricsAll P m s cn.1)

/-- The notes accumulated over the first `ncases` cases of a
failure-free scene. -/
def sceneNotesClean (P : Nat → ProfilerModel) (m s ncases : Nat) : List NoteRec :=
  ((List.range ncases).map fun c => caseNotesAll P m s c).flatten

theorem runStartHooks_clean (P : Nat → ProfilerModel) (ps : List Nat)
    (h : ∀ p ∈ ps, (P p).startErr = none) : ∀ ctx,
    runStartHooks P ps ctx =
      ({ ctx with trace := ctx.trace ++ ps.map .onStart,
                  meta := ctx.meta ++ (ps.map fun p => (P p).startMeta).flatten }, none) := by
  induction ps with
  | nil => intro ctx; simp [runStartHooks]
  | cons p rest ih =>
    intro ctx
    have hp : (P p).startErr = none := h p (by simp)
    rw [runStartHooks, hp]
    rw [ih (fun q hq => h q (by simp [hq]))]
    simp [List.append_assoc]

theorem runSceneHooks_clean (P : Nat → ProfilerModel) (s : Nat) (ps : List Nat)
    (h : ∀ p ∈ ps, (P p).sceneErr s = none) : ∀ ctx,
    runSceneHooks P s ps ctx =
      ({ ctx with trace := ctx.trace ++ ps.map (.onScene · s) }, none) := by
  induction ps with
  | nil => intro ctx; simp [runSceneHooks]
  | cons p rest ih =>
    intro ctx
    have hp : (P p).sceneErr s = none := h p (by simp)
    rw [runSceneHooks, hp]
    rw [ih (fun q hq => h q (by simp [hq]))]
    simp [List.append_assoc]

theorem runFinishHooks_clean (P : Nat → ProfilerModel) (ps : List Nat)
    (h : ∀ p ∈ ps, (P p).finishErr = none) : ∀ ctx,
    runFinishHooks P ps ctx =
      ({ ctx with trace := ctx.trace ++ ps.map .onFinish }, none) := by
  induction ps with
  | nil => intro ctx; simp [runFinishHooks]
  | cons p rest ih =>
    intro ctx
    have hp : (P p).finishErr = none := h p (by simp)
    rw [runFinishHooks, hp]
    rw [ih (fun q hq => h q (by simp [hq]))]
    simp [List.append_assoc]

theorem runCaseHooks_clean (P : Nat → ProfilerModel) (s c : Nat) (ps : List Nat)
    (h : ∀ p ∈ ps, ((P p).caseBeh s c).err = none) : ∀ ctx ms,
    runCaseHooks P s c ps ctx ms =
      ({ ctx with trace := ctx.trace ++ ps.map (.onCase · s c),
                  notes := ctx.notes ++ (ps.map fun p => ((P p).caseBeh s c).notesAdd).flatten },
        ms ++ (ps.map fun p => ((P p).caseBeh s c).metricsAdd).flatten, none) := by
  induction ps with
  | nil => intro ctx ms; simp [runCaseHooks]
  | cons p rest ih =>
    intro ctx ms
    have hp : ((P p).caseBeh s c).err = none := h p (by simp)
    rw [runCaseHooks, hp]
    rw [ih (fun q hq => h q (by simp [hq]))]
    simp [List.append_assoc]

theorem enum_map_fst_comp {α β : Type} (l : List α) (g : Nat → β) :
    l.enum.map (fun ic => g ic.1) = (List.range l.length).map g := by
  rw [show (fun ic : Nat × α => g ic.1) = g ∘ Prod.fst from rfl, ← List.map_map,
    List.enum_map_fst]

theorem mem_enum_fst_lt {α : Type} {l : List α} {ic : Nat × α} (h : ic ∈ l.enum) :
    ic.1 < l.length := by
  have h2 := List.mem_enum_iff_getElem?.mp h
  by_contra hge
  rw [List.getElem?_eq_none (by omega)] at h2
  cases h2

theorem pushCaseResult_mk (S : List (List (String × CaseMetrics)))
    (cur : List (String × CaseMetrics)) (nts : List NoteRec) (mt : List (String × Nat))
    (tr : List PEvent) (wp : Option String) (name : String) (ms : CaseMetrics) :
    pushCaseResult ⟨S ++ [cur], nts, mt, tr, wp⟩ name ms =
      ⟨S ++ [cur ++ [(name, ms)]], nts, mt, tr, wp⟩ := by
  simp [pushCaseResult, List.dropLast_concat, List.getLast?_concat]

theorem runCases_clean (P : Nat → ProfilerModel) (m s : Nat) (ics : List (Nat × String))
    (h : ∀ ic ∈ ics, ∀ p ∈ List.range m, ((P p).caseBeh s ic.1).err = none) :
    ∀ (S : List (List (String × CaseMetrics))) (cur : List (String × CaseMetrics))
      (nts : List NoteRec) (mt : List (String × Nat)) (tr : List PEvent) (wp : Option String),
      runCases P m s ics ⟨S ++ [cur], nts, mt, tr, wp⟩ =
        (⟨S ++ [cur ++ ics.map fun ic => (ic.2, caseMetricsAll P m s ic.1)],
          nts ++ (ics.map fun ic => caseNotesAll P m s ic.1).flatten,
          mt,
          tr ++ (ics.map fun ic => caseTraceBlock m s ic.1).flatten,
          wp⟩, none) := by
  induction ics with
  | nil =>
    intro S cur nts mt tr wp
    simp [runCases]
  | cons ic rest ih =>
    intro S cur nts mt tr wp
    obtain ⟨c, name⟩ := ic
    have hc : ∀ p ∈ List.range m, ((P p).caseBeh s c).err = none :=
      fun p hp => h (c, name) (by simp) p hp
    rw [runCases, runCaseHooks_clean P s c (List.range m) hc]
    dsimp only
    rw [pushCaseResult_mk]
    rw [ih (fun q hq p hp => h q (by simp [hq]) p hp)]
    simp [caseMetricsAll, caseNotesAll, caseTraceBlock, List.append_assoc]

theorem runScene_clean (P : Nat → ProfilerModel) (m s : Nat) (spec : SceneSpec)
    (hsetup : spec.setupErr = none)
    (hscene : ∀ p ∈ List.range m, (P p).sceneErr s = none)
    (hcase : ∀ c < spec.cases.length, ∀ p ∈ List.range m, ((P p).caseBeh s c).err = none) :
    ∀ (sc : List (List (String × CaseMetrics))) (nts : List NoteRec)
      (mt : List (String × Nat)) (tr : List PEvent) (wp : Option String),
      runScene P m s spec ⟨sc, nts, mt, tr, wp⟩ =
        (⟨sc ++ [sceneResultClean P m s spec.cases],
          nts ++ sceneNotesClean P m s spec.cases.length,
          mt,
          tr ++ sceneTraceBlock m s spec,
          wp⟩, none) := by
  intro sc nts mt tr wp
  rw [runScene, hsetup]
  rw [runSceneHooks_clean P s (List.range m) hscene]
  dsimp only
  have hics : ∀ ic ∈ spec.cases.enum, ∀ p ∈ List.range m, ((P p).caseBeh s ic.1).err = none :=
    fun ic hic p hp => hcase ic.1 (mem_enum_fst_lt hic) p hp
  rw [runCases_clean P m s spec.cases.enum hics sc []]
  dsimp only
  simp only [sceneResultClean, sceneNotesClean, sceneTraceBlock, List.nil_append]
  rw [enum_map_fst_comp spec.cases (fun c => caseNotesAll P m s c),
    enum_map_fst_comp spec.cases (fun c => caseTraceBlock m s c)]
  simp [List.append_assoc]

/-- A scene that runs to completion: its setup and every profiler hook
invoked for it succeed. -/
def cleanScene (P : Nat → ProfilerModel) (m : Nat) (ss : Nat × SceneSpec) : Prop :=
  ss.2.setupErr = none ∧ (∀ p ∈ List.range m, (P p).sceneErr ss.1 = none) ∧
    ∀ c < ss.2.cases.length, ∀ p ∈ List.range m, ((P p).caseBeh ss.1 c).err = none

theorem runScenes_clean (P : Nat → ProfilerModel) (m : Nat) (sl : List (Nat × SceneSpec))
    (h : ∀ ss ∈ sl, cleanScene P m ss) :
    ∀ (sc : List (List (String × CaseMetrics))) (nts : List NoteRec)
      (mt : List (String × Nat)) (tr : List PEvent) (wp : Option String),
      runScenes P m sl ⟨sc, nts, mt, tr, wp⟩ =
        (⟨sc ++ sl.map (fun ss => sceneResultClean P m ss.1 ss.2.cases),
          nts ++ (sl.map fun ss => sceneNotesClean P m ss.1 ss.2.cases.length).flatten,
          mt,
          tr ++ (sl.map fun ss => sceneTraceBlock m ss.1 ss.2).flatten,
          wp⟩, none) := by
  induction sl with
  | nil => intro sc nts mt tr wp; simp [runScenes]
  | cons ss rest ih =>
    intro sc nts mt tr wp
    obtain ⟨hsetup, hscene, hcase⟩ := h ss (by simp)
    rw [runScenes, runScene_clean P m ss.1 ss.2 hsetup hscene hcase]
    dsimp only
    rw [ih (fun t ht => h t (by simp [ht]))]
    simp [List.append_assoc]

/-! ### C4: lifecycle ordering of a failure-free run -/

/-- The full hook trace of a failure-free run: all `onStart` calls in
registration order, then for each scene in cross-product order its
`onScene` block followed by the `onCase` blocks of its cases in
registration order, then all `onFinish` calls. -/
def cleanRunTrace (m : Nat) (specs : List SceneSpec) : List PEvent :=
  startTraceBlock m ++
    (specs.enum.map fun ss => sceneTraceBlock m ss.1 ss.2).flatten ++
    finishTraceBlock m

theorem onStart_injective : Function.Injective PEvent.onStart := by
  intro a b h; injection h

theorem onFinish_injective : Function.Injective PEvent.onFinish := by
  intro a b h; injection h

theorem onStart_not_mem_sceneTraceBlock (p m s : Nat) (spec : SceneSpec) :
    PEvent.onStart p ∉ sceneTraceBlock m s spec := by
  simp [sceneTraceBlock, caseTraceBlock, List.mem_flatten]

theorem onFinish_not_mem_sceneTraceBlock (p m s : Nat) (spec : SceneSpec) :
    PEvent.onFinish p ∉ sceneTraceBlock m s spec := by
  simp [sceneTraceBlock, caseTraceBlock, List.mem_flatten]

theorem count_onStart_cleanRunTrace (p m : Nat) (hp : p < m) (specs : List SceneSpec) :
    List.count (PEvent.onStart p) (cleanRunTrace m specs) = 1 := by
  rw [cleanRunTrace, List.count_append, List.count_append]
  have h1 : List.count (PEvent.onStart p) (startTraceBlock m) = 1 := by
    rw [startTraceBlock, List.count_map_of_injective _ _ onStart_injective]
    exact List.count_eq_one_of_mem (List.nodup_range m) (List.mem_range.mpr hp)
  have h2 : List.count (PEvent.onStart p)
      ((specs.enum.map fun ss => sceneTraceBlock m ss.1 ss.2).flatten) = 0 := by
    refine List.count_eq_zero_of_not_mem ?_
    intro hmem
    obtain ⟨l, hl, hel⟩ := List.mem_flatten.mp hmem
    obtain ⟨ss, _, rfl⟩ := List.mem_map.mp hl
    exact onStart_not_mem_sceneTraceBlock p m ss.1 ss.2 hel
  have h3 : List.count (PEvent.onStart p) (finishTraceBlock m) = 0 := by
    refine List.count_eq_zero_of_not_mem ?_
    simp [finishTraceBlock]
  omega

theorem count_onFinish_cleanRunTrace (p m : Nat) (hp : p < m) (specs : List SceneSpec) :
    List.count (PEvent.onFinish p) (cleanRunTrace m specs) = 1 := by
  rw [cleanRunTrace, List.count_append, List.count_append]
  have h1 : List.count (PEvent.onFinish p) (startTraceBlock m) = 0 := by
    refine List.count_eq_zero_of_not_mem ?_
    simp [startTraceBlock]
  have h2 : List.count (PEvent.onFinish p)
      ((specs.enum.map fun ss => sceneTraceBlock m ss.1 ss.2).flatten) = 0 := by
    refine List.count_eq_zero_of_not_mem ?_
    intro hmem
    obtain ⟨l, hl, hel⟩ := List.mem_flatten.mp hmem
    obtain ⟨ss, _, rfl⟩ := List.mem_map.mp hl
    exact onFinish_not_mem_sceneTraceBlock p m ss.1 ss.2 hel
  have h3 : List.count (PEvent.onFinish p) (finishTraceBlock m) = 1 := by
    rw [finishTraceBlock, List.count_map_of_injective _ _ onFinish_injective]
    exact List.count_eq_one_of_mem (List.nodup_range m) (List.mem_range.mpr hp)
  omega

/-- The final state of a failure-free run, in closed form. -/
theorem contextRun_clean (P : Nat → ProfilerModel) (m : Nat) (specs : List SceneSpec)
    (hstart : ∀ p < m, (P p).startErr = none)
    (hfinish : ∀ p < m, (P p).finishErr = none)
    (hscenes : ∀ ss ∈ specs.enum, cleanScene P m ss) :
    contextRun P m specs =
      (⟨specs.enum.map (fun ss => sceneResultClean P m ss.1 ss.2.cases),
        (specs.enum.map fun ss => sceneNotesClean P m ss.1 ss.2.cases.length).flatten,
        startMetaAll P m,
        cleanRunTrace m specs,
        none⟩, none) := by
  rw [contextRun,
    runStartHooks_clean P (List.range m) (fun p hp => hstart p (List.mem_range.mp hp))]
  dsimp only [PContext.fresh]
  simp only [List.nil_append]
  rw [runScenes_clean P m specs.enum hscenes]
  dsimp only
  rw [runFinishHooks_clean P (List.range m) (fun p hp => hfinish p (List.mem_range.mp hp))]
  simp [cleanRunTrace, startTraceBlock, finishTraceBlock, startMetaAll, List.append_assoc]

/-- **C4.** In a failure-free run, each profiler's `onStart` is invoked
exactly once and all `onStart` invocations precede everything else; then
`onScene` and `onCase` calls are strictly interleaved in cross-product
order — each scene's `onScene` block precedes the `onCase` blocks of
that scene's cases, cases in registration order — and each profiler's
`onFinish` is invoked exactly once, after the last `onCase`; within
every lifecycle event the profilers are invoked in registration order.
The whole contract is the trace equation with `cleanRunTrace`. -/
theorem profilingContext_run_lifecycle (P : Nat → ProfilerModel) (m : Nat)
    (specs : List SceneSpec)
    (hstart : ∀ p < m, (P p).startErr = none)
    (hfinish : ∀ p < m, (P p).finishErr = none)
    (hscenes : ∀ ss ∈ specs.enum, cleanScene P m ss) :
    (contextRun P m specs).2 = none ∧
      (contextRun P m specs).1.trace = cleanRunTrace m specs ∧
      (∀ p < m, List.count (PEvent.onStart p) (contextRun P m specs).1.trace = 1) ∧
      (∀ p < m, List.count (PEvent.onFinish p) (contextRun P m specs).1.trace = 1) := by
  have h := contextRun_clean P m specs hstart hfinish hscenes
  rw [h]
  refine ⟨rfl, rfl, ?_, ?_⟩
  · exact fun p hp => count_onStart_cleanRunTrace p m hp specs
  · exact fun p hp => count_onFinish_cleanRunTrace p m hp specs

instance cleanSceneDecidable (P : Nat → ProfilerModel) (m : Nat) (ss : Nat × SceneSpec) :
    Decidable (cleanScene P m ss) := by
  unfold cleanScene
  infer_instance

/-- A profiler all of whose hooks succeed and record nothing. -/
def cleanProfiler : ProfilerModel where
  startMeta := []
  startErr := none
  sceneErr := fun _ => none
  caseBeh := fun _ _ => ⟨[], [], none⟩
  finishErr := none

/-- **C4 (witness).** Two profilers over two scenes (two cases, then one
case): the run succeeds and the trace follows the lifecycle contract. -/
theorem profilingContext_run_lifecycle_witness :
    (contextRun (fun _ => cleanProfiler) 2 [⟨["a", "b"], none, 1⟩, ⟨["c"], none, 0⟩]).2 =
        none ∧
      (contextRun (fun _ => cleanProfiler) 2 [⟨["a", "b"], none, 1⟩, ⟨["c"], none, 0⟩]).1.trace =
        cleanRunTrace 2 [⟨["a", "b"], none, 1⟩, ⟨["c"], none, 0⟩] ∧
      (∀ p < 2, List.count (PEvent.onStart p)
        (contextRun (fun _ => cleanProfiler) 2
          [⟨["a", "b"], none, 1⟩, ⟨["c"], none, 0⟩]).1.trace = 1) ∧
      (∀ p < 2, List.count (PEvent.onFinish p)
        (contextRun (fun _ => cleanProfiler) 2
          [⟨["a", "b"], none, 1⟩, ⟨["c"], none, 0⟩]).1.trace = 1) :=
  profilingContext_run_lifecycle (fun _ => cleanProfiler) 2
    [⟨["a", "b"], none, 1⟩, ⟨["c"], none, 0⟩]
    (by decide) (by decide) (by decide)

/-! ### C5: teardown hooks and scene failures -/

/-- **C5 (counterexample).** A scene whose `setup` throws (error code 7)
after registering one teardown hook: `runScene` propagates the error and
its trace contains no teardown event at all — the teardown hooks are
skipped because profiling.ts:253 runs `setup` outside the try/finally. -/
theorem runScene_setupError_skips_teardown :
    runScene (fun _ => cleanProfiler) 1 0 ⟨["a"], some 7, 1⟩ PContext.fresh =
        (PContext.fresh, some 7) ∧
      (runScene (fun _ => cleanProfiler) 1 0 ⟨["a"], some 7, 1⟩ PContext.fresh).1.trace = [] :=
  ⟨rfl, rfl⟩

/-- **C5 (amended).** For every scene whose `setup` completed, the
scene's teardown hooks run before any error propagates: whatever the
profiler hooks and workloads running inside them do — throwing or not —
every registered teardown hook's event is in the resulting trace.  (When
`setup` itself throws, the teardown hooks are skipped.) -/
theorem runScene_teardown_unconditional_after_setup (P : Nat → ProfilerModel)
    (m s : Nat) (spec : SceneSpec) (ctx : PContext) (hsetup : spec.setupErr = none) :
    ∀ i < spec.teardownCount, PEvent.teardown s i ∈ (runScene P m s spec ctx).1.trace := by
  intro i hi
  rw [runScene, hsetup]
  dsimp only
  exact List.mem_append_right _ (List.mem_map.mpr ⟨i, List.mem_range.mpr hi, rfl⟩)

/-- A profiler whose `onCase` hook always throws (error code 5). -/
def throwingCaseProfiler : ProfilerModel where
  startMeta := []
  startErr := none
  sceneErr := fun _ => none
  caseBeh := fun _ _ => ⟨[], [], some 5⟩
  finishErr := none

/-- **C5 (witness).** A scene with one teardown hook whose only case
makes the profiler throw: the teardown event is still in the trace. -/
theorem runScene_teardown_unconditional_after_setup_witness :
    PEvent.teardown 0 0 ∈
      (runScene (fun _ => throwingCaseProfiler) 1 0 ⟨["a"], none, 1⟩ PContext.fresh).1.trace :=
  runScene_teardown_unconditional_after_setup (fun _ => throwingCaseProfiler) 1 0
    ⟨["a"], none, 1⟩ PContext.fresh rfl 0 (by decide)

/-! ### C10: state preservation when an `onCase` hook throws -/

/-- Notes added while processing one case by profilers `0‥q` inclusive —
profiler `q` adds its notes before throwing. -/
def caseNotesUpTo (P : Nat → ProfilerModel) (s c q : Nat) : List NoteRec :=
  ((List.range (q + 1)).map fun p => ((P p).caseBeh s c).notesAdd).flatten

theorem range_split (q m : Nat) (h : q < m) :
    List.range m = List.range q ++ q :: (List.range (m - q - 1)).map (q + 1 + ·) := by
  have hm : m = (q + 1) + (m - q - 1) := by omega
  conv_lhs => rw [hm]
  rw [List.range_add, List.range_succ]
  simp [List.append_assoc]

theorem runCaseHooks_fail (P : Nat → ProfilerModel) (s c q : Nat) (e : Err)
    (hq : ((P q).caseBeh s c).err = some e) (ps₁ ps₂ : List Nat)
    (h₁ : ∀ p ∈ ps₁, ((P p).caseBeh s c).err = none) :
    ∀ ctx ms, runCaseHooks P s c (ps₁ ++ q :: ps₂) ctx ms =
      ({ ctx with
          trace := ctx.trace ++ (ps₁ ++ [q]).map (.onCase · s c),
          notes := ctx.notes ++
            ((ps₁ ++ [q]).map fun p => ((P p).caseBeh s c).notesAdd).flatten },
        ms ++ ((ps₁ ++ [q]).map fun p => ((P p).caseBeh s c).metricsAdd).flatten, some e) := by
  induction ps₁ with
  | nil =>
    intro ctx ms
    rw [List.nil_append, runCaseHooks, hq]
    simp
  | cons p rest ih =>
    intro ctx ms
    have hp := h₁ p (by simp)
    rw [List.cons_append, runCaseHooks, hp]
    rw [ih (fun u hu => h₁ u (by simp [hu]))]
    simp [List.append_assoc]

theorem runCases_fail (P : Nat → ProfilerModel) (m s c q : Nat) (e : Err) (name : String)
    (hqm : q < m)
    (hq : ((P q).caseBeh s c).err = some e)
    (hqclean : ∀ p ∈ List.range q, ((P p).caseBeh s c).err = none)
    (ics₁ ics₂ : List (Nat × String))
    (h₁ : ∀ ic ∈ ics₁, ∀ p ∈ List.range m, ((P p).caseBeh s ic.1).err = none) :
    ∀ (S : List (List (String × CaseMetrics))) (cur : List (String × CaseMetrics))
      (nts : List NoteRec) (mt : List (String × Nat)) (tr : List PEvent) (wp : Option String),
      runCases P m s (ics₁ ++ (c, name) :: ics₂) ⟨S ++ [cur], nts, mt, tr, wp⟩ =
        (⟨S ++ [cur ++ ics₁.map fun ic => (ic.2, caseMetricsAll P m s ic.1)],
          nts ++ (ics₁.map fun ic => caseNotesAll P m s ic.1).flatten ++ caseNotesUpTo P s c q,
          mt,
          tr ++ (ics₁.map fun ic => caseTraceBlock m s ic.1).flatten ++
            (List.range (q + 1)).map (.onCase · s c),
          wp⟩, some e) := by
  induction ics₁ with
  | nil =>
    intro S cur nts mt tr wp
    rw [List.nil_append, runCases, range_split q m hqm,
      runCaseHooks_fail P s c q e hq (List.range q) _ hqclean]
    dsimp only
    simp [caseNotesUpTo, List.range_succ, List.append_assoc]
  | cons ic rest ih =>
    intro S cur nts mt tr wp
    obtain ⟨c₀, name₀⟩ := ic
    have hc : ∀ p ∈ List.range m, ((P p).caseBeh s c₀).err = none :=
      fun p hp => h₁ (c₀, name₀) (by simp) p hp
    rw [List.cons_append, runCases, runCaseHooks_clean P s c₀ (List.range m) hc]
    dsimp only
    rw [pushCaseResult_mk]
    rw [ih (fun u hu p hp => h₁ u (by simp [hu]) p hp)]
    simp [caseMetricsAll, caseNotesAll, caseTraceBlock, List.append_assoc]

theorem runScene_fail_case (P : Nat → ProfilerModel) (m s q : Nat) (e : Err)
    (spec : SceneSpec) (preC postC : List String) (nameK : String)
    (hcsplit : spec.cases = preC ++ nameK :: postC)
    (hsetup : spec.setupErr = none)
    (hscene : ∀ p ∈ List.range m, (P p).sceneErr s = none)
    (hcasePre : ∀ c < preC.length, ∀ p ∈ List.range m, ((P p).caseBeh s c).err = none)
    (hqm : q < m)
    (hq : ((P q).caseBeh s preC.length).err = some e)
    (hqclean : ∀ p ∈ List.range q, ((P p).caseBeh s preC.length).err = none) :
    ∀ (sc : List (List (String × CaseMetrics))) (nts : List NoteRec)
      (mt : List (String × Nat)) (tr : List PEvent) (wp : Option String),
      runScene P m s spec ⟨sc, nts, mt, tr, wp⟩ =
        (⟨sc ++ [sceneResultClean P m s preC],
          nts ++ sceneNotesClean P m s preC.length ++ caseNotesUpTo P s preC.length q,
          mt,
          tr ++ (List.range m).map (.onScene · s) ++
            ((List.range preC.length).map fun c => caseTraceBlock m s c).flatten ++
            (List.range (q + 1)).map (.onCase · s preC.length) ++
            (List.range spec.teardownCount).map (.teardown s),
          wp⟩, some e) := by
  intro sc nts mt tr wp
  rw [runScene, hsetup]
  rw [runSceneHooks_clean P s (List.range m) hscene]
  dsimp only
  have henum : spec.cases.enum =
      preC.enum ++ (preC.length, nameK) :: postC.enumFrom (preC.length + 1) := by
    rw [hcsplit, List.enum_append, List.enumFrom_cons]
  rw [henum]
  have hpre : ∀ ic ∈ preC.enum, ∀ p ∈ List.range m, ((P p).caseBeh s ic.1).err = none :=
    fun ic hic p hp => hcasePre ic.1 (mem_enum_fst_lt hic) p hp
  rw [runCases_fail P m s preC.length q e nameK hqm hq hqclean preC.enum _ hpre sc []]
  dsimp only
  simp only [sceneResultClean, sceneNotesClean, List.nil_append]
  rw [enum_map_fst_comp preC (fun c => caseNotesAll P m s c),
    enum_map_fst_comp preC (fun c => caseTraceBlock m s c)]

theorem runScenes_fail_scene (P : Nat → ProfilerModel) (m j : Nat) (e : Err)
    (specj : SceneSpec) (sl₁ sl₂ : List (Nat × SceneSpec))
    (h₁ : ∀ ss ∈ sl₁, cleanScene P m ss)
    (ctxF : PContext)
    (hstep : ∀ (sc : List (List (String × CaseMetrics))) (nts : List NoteRec)
      (mt : List (String × Nat)) (tr : List PEvent) (wp : Option String),
      runScene P m j specj ⟨sc, nts, mt, tr, wp⟩ =
        ({ ctxF with
            scenes := sc ++ ctxF.scenes, notes := nts ++ ctxF.notes,
            meta := mt, trace := tr ++ ctxF.trace, workingParams := wp }, some e)) :
    ∀ (sc : List (List (String × CaseMetrics))) (nts : List NoteRec)
      (mt : List (String × Nat)) (tr : List PEvent) (wp : Option String),
      runScenes P m (sl₁ ++ (j, specj) :: sl₂) ⟨sc, nts, mt, tr, wp⟩ =
        ({ ctxF with
            scenes := (sc ++ sl₁.map fun ss => sceneResultClean P m ss.1 ss.2.cases) ++
              ctxF.scenes,
            notes := (nts ++
              (sl₁.map fun ss => sceneNotesClean P m ss.1 ss.2.cases.length).flatten) ++
              ctxF.notes,
            meta := mt,
            trace := (tr ++ (sl₁.map fun ss => sceneTraceBlock m ss.1 ss.2).flatten) ++
              ctxF.trace,
            workingParams := wp }, some e) := by
  induction sl₁ with
  | nil =>
    intro sc nts mt tr wp
    rw [List.nil_append, runScenes, hstep]
    simp
  | cons ss rest ih =>
    intro sc nts mt tr wp
    obtain ⟨hsetup, hscene, hcase⟩ := h₁ ss (by simp)
    rw [List.cons_append, runScenes, runScene_clean P m ss.1 ss.2 hsetup hscene hcase]
    dsimp only
    rw [ih (fun t ht => h₁ t (by simp [ht]))]
    simp [List.append_assoc]

/-- The state contributed by the failing scene: its partial result
record (cases before the failing one), the notes added up to and
including the throwing profiler, and its trace block ending with the
truncated `onCase` block and the teardown events. -/
def failSceneCtx (P : Nat → ProfilerModel) (m j : Nat) (specj : SceneSpec)
    (preC : List String) (q : Nat) : PContext :=
  ⟨[sceneResultClean P m j preC],
    sceneNotesClean P m j preC.length ++ caseNotesUpTo P j preC.length q,
    [],
    (List.range m).map (.onScene · j) ++
      ((List.range preC.length).map fun c => caseTraceBlock m j c).flatten ++
      (List.range (q + 1)).map (.onCase · j preC.length) ++
      (List.range specj.teardownCount).map (.teardown j),
    none⟩

/-- **C10.** If a profiler's `onCase` hook throws while processing the
case at position `k = |preC|` of a scene, the run fails with that error,
but the context's accumulated state is not rolled back: `scenes` still
ends with the current scene's result record holding exactly the metrics
recorded for the earlier cases (the failing case's record is absent,
since it is stored only after all `onCase` hooks return), every metric
descriptor registered during `onStart` is still present, and the notes
are exactly those recorded before the failure — including the ones the
throwing profiler added before throwing. -/
theorem profilingContext_onCase_failure_preserves_state (P : Nat → ProfilerModel)
    (m : Nat) (pre post : List SceneSpec) (specj : SceneSpec)
    (preC postC : List String) (nameK : String) (q : Nat) (e : Err)
    (hstart : ∀ p < m, (P p).startErr = none)
    (hpre : ∀ ss ∈ pre.enum, cleanScene P m ss)
    (hcsplit : specj.cases = preC ++ nameK :: postC)
    (hsetupj : specj.setupErr = none)
    (hscenej : ∀ p < m, (P p).sceneErr pre.length = none)
    (hcasePre : ∀ c < preC.length, ∀ p < m, ((P p).caseBeh pre.length c).err = none)
    (hqm : q < m)
    (hq : ((P q).caseBeh pre.length preC.length).err = some e)
    (hqclean : ∀ p < q, ((P p).caseBeh pre.length preC.length).err = none) :
    (contextRun P m (pre ++ specj :: post)).2 = some e ∧
      (contextRun P m (pre ++ specj :: post)).1.scenes =
        pre.enum.map (fun ss => sceneResultClean P m ss.1 ss.2.cases) ++
          [sceneResultClean P m pre.length preC] ∧
      (contextRun P m (pre ++ specj :: post)).1.meta = startMetaAll P m ∧
      (contextRun P m (pre ++ specj :: post)).1.notes =
        (pre.enum.map fun ss => sceneNotesClean P m ss.1 ss.2.cases.length).flatten ++
          sceneNotesClean P m pre.length preC.length ++
          caseNotesUpTo P pre.length preC.length q := by
  have hrun : contextRun P m (pre ++ specj :: post) =
      ({ failSceneCtx P m pre.length specj preC q with
          scenes := ([] ++ pre.enum.map fun ss => sceneResultClean P m ss.1 ss.2.cases) ++
            (failSceneCtx P m pre.length specj preC q).scenes,
          notes := ([] ++
            (pre.enum.map fun ss => sceneNotesClean P m ss.1 ss.2.cases.length).flatten) ++
            (failSceneCtx P m pre.length specj preC q).notes,
          meta := [] ++ ((List.range m).map fun p => (P p).startMeta).flatten,
          trace := (([] ++ (List.range m).map PEvent.onStart) ++
            (pre.enum.map fun ss => sceneTraceBlock m ss.1 ss.2).flatten) ++
            (failSceneCtx P m pre.length specj preC q).trace,
          workingParams := none }, some e) := by
    rw [contextRun,
      runStartHooks_clean P (List.range m) (fun p hp => hstart p (List.mem_range.mp hp))]
    dsimp only [PContext.fresh]
    have henum : (pre ++ specj :: post).enum =
        pre.enum ++ (pre.length, specj) :: post.enumFrom (pre.length + 1) := by
      rw [List.enum_append, List.enumFrom_cons]
    rw [henum]
    rw [runScenes_fail_scene P m pre.length e specj pre.enum
      (post.enumFrom (pre.length + 1)) hpre (failSceneCtx P m pre.length specj preC q)
      (by
        intro sc nts mt tr wp
        rw [runScene_fail_case P m pre.length q e specj preC postC nameK hcsplit hsetupj
          (fun p hp => hscenej p (List.mem_range.mp hp))
          (fun c hc p hp => hcasePre c hc p (List.mem_range.mp hp)) hqm hq
          (fun p hp => hqclean p (List.mem_range.mp hp))]
        simp [failSceneCtx, List.append_assoc])]
  rw [hrun]
  refine ⟨rfl, ?_, ?_, ?_⟩
  · simp [failSceneCtx]
  · simp [startMetaAll]
  · simp [failSceneCtx, List.append_assoc]

/-- A profiler that records a metric and a note for case 0, then throws
(error code 9) for every later case — after adding a warning note. -/
def notingThenThrowingProfiler : ProfilerModel where
  startMeta := [("time", 1)]
  startErr := none
  sceneErr := fun _ => none
  caseBeh := fun _ c =>
    if c = 0 then ⟨[("time", 10)], [⟨false, "ok", some 0⟩], none⟩
    else ⟨[], [⟨true, "boom", some 1⟩], some 9⟩
  finishErr := none

/-- **C10 (witness).** One profiler, one scene `["a", "b"]`; the hook
throws at case 1: the run fails with error 9, the scene record holds the
metrics of case 0 only, the descriptor registered at `onStart` is still
there, and both notes (the one for case 0 and the one added before the
throw) survive. -/
theorem profilingContext_onCase_failure_preserves_state_witness :
    (contextRun (fun _ => notingThenThrowingProfiler) 1 [⟨["a", "b"], none, 0⟩]).2 = some 9 ∧
      (contextRun (fun _ => notingThenThrowingProfiler) 1 [⟨["a", "b"], none, 0⟩]).1.scenes =
        [sceneResultClean (fun _ => notingThenThrowingProfiler) 1 0 ["a"]] ∧
      (contextRun (fun _ => notingThenThrowingProfiler) 1 [⟨["a", "b"], none, 0⟩]).1.meta =
        startMetaAll (fun _ => notingThenThrowingProfiler) 1 ∧
      (contextRun (fun _ => notingThenThrowingProfiler) 1 [⟨["a", "b"], none, 0⟩]).1.notes =
        sceneNotesClean (fun _ => notingThenThrowingProfiler) 1 0 1 ++
          caseNotesUpTo (fun _ => notingThenThrowingProfiler) 0 1 0 :=
  profilingContext_onCase_failure_preserves_state (fun _ => notingThenThrowingProfiler)
    1 [] [] ⟨["a", "b"], none, 0⟩ ["a"] [] "b" 0 9
    (by decide) (by decide) rfl rfl (by decide) (by decide) (by decide) (by decide)
    (by decide)

/-! ## Suite model (`suite.ts`, `Scene` and `BenchCase`) -/

/-- A registered benchmark case: name and the explicit async flag
(`true` for `benchAsync`, `false` for `bench`). -/
structure BenchCaseRec where
  name : String
  isAsync : Bool
  deriving DecidableEq, Repr

/-- `/^\s*$/.test(name)` (suite.ts:270): every character of the name is
whitespace; true for the empty string. -/
def isBlankName (name : String) : Bool :=
  name.data.all Char.isWhitespace

/-- `Scene.add` (suite.ts:269-279): reject a blank name, then reject a
name already used in the scene, and only then consult the include
pattern — a non-matching case is dropped without error. -/
def sceneAdd (cases : List BenchCaseRec) (includePat : String → Bool)
    (name : String) (isAsync : Bool) : Except String (List BenchCaseRec) :=
  if isBlankName name then
    .error "Case name cannot be blank."
  else if cases.any (fun c => c.name == name) then
    .error ("Case \"" ++ name ++ "\" already exists.")
  else if includePat name then
    .ok (cases ++ [⟨name, isAsync⟩])
  else
    .ok cases

/-- `Scene.bench` (suite.ts:251-253). -/
def sceneBench (cases : List BenchCaseRec) (includePat : String → Bool) (name : String) :
    Except String (List BenchCaseRec) :=
  sceneAdd cases includePat name false

/-- `Scene.benchAsync` (suite.ts:255-257). -/
def sceneBenchAsync (cases : List BenchCaseRec) (includePat : String → Bool) (name : String) :
    Except String (List BenchCaseRec) :=
  sceneAdd cases includePat name true

/-- **C7.** For every call of `Scene.bench` or `Scene.benchAsync` — both
delegate to `Scene.add` — a blank (all-whitespace or empty) name or a
duplicate name is rejected with an error for *every* include pattern,
matching or not; a non-blank, non-duplicate case whose name does not
match the pattern is not added (the scene is unchanged), and a matching
one is appended. -/
theorem scene_add_name_rules (cases : List BenchCaseRec) (includePat : String → Bool)
    (name : String) (isAsync : Bool) :
    (isBlankName name = true →
      sceneAdd cases includePat name isAsync = .error "Case name cannot be blank.") ∧
      (isBlankName name = false → cases.any (fun c => c.name == name) = true →
        sceneAdd cases includePat name isAsync =
          .error ("Case \"" ++ name ++ "\" already exists.")) ∧
      (isBlankName name = false → cases.any (fun c => c.name == name) = false →
        includePat name = false → sceneAdd cases includePat name isAsync = .ok cases) ∧
      (isBlankName name = false → cases.any (fun c => c.name == name) = false →
        includePat name = true →
        sceneAdd cases includePat name isAsync = .ok (cases ++ [⟨name, isAsync⟩])) ∧
      sceneBench cases includePat name = sceneAdd cases includePat name false ∧
      sceneBenchAsync cases includePat name = sceneAdd cases includePat name true := by
  refine ⟨?_, ?_, ?_, ?_, rfl, rfl⟩
  · intro hb; simp [sceneAdd, hb]
  · intro hb hd; simp [sceneAdd, hb, hd]
  · intro hb hd hi; simp [sceneAdd, hb, hd, hi]
  · intro hb hd hi; simp [sceneAdd, hb, hd, hi]

/-- **C7 (witness).** With the scene holding case `"x"` and a pattern
matching only `"zzz"`: a whitespace name and the duplicate `"x"` fail
even though the pattern would have filtered both out; `"y"` is silently
dropped; `"zzz"` is appended. -/
theorem scene_add_name_rules_witness :
    sceneAdd [⟨"x", false⟩] (fun s => s == "zzz") " " true =
        .error "Case name cannot be blank." ∧
      sceneAdd [⟨"x", false⟩] (fun s => s == "zzz") "x" true =
        .error ("Case \"" ++ "x" ++ "\" already exists.") ∧
      sceneAdd [⟨"x", false⟩] (fun s => s == "zzz") "y" true = .ok [⟨"x", false⟩] ∧
      sceneAdd [⟨"x", false⟩] (fun s => s == "zzz") "zzz" true =
        .ok [⟨"x", false⟩, ⟨"zzz", true⟩] :=
  ⟨(scene_add_name_rules [⟨"x", false⟩] (fun s => s == "zzz") " " true).1 (by decide),
    (scene_add_name_rules [⟨"x", false⟩] (fun s => s == "zzz") "x" true).2.1
      (by decide) (by decide),
    (scene_add_name_rules [⟨"x", false⟩] (fun s => s == "zzz") "y" true).2.2.1
      (by decide) (by decide) (by decide),
    (scene_add_name_rules [⟨"x", false⟩] (fun s => s == "zzz") "zzz" true).2.2.2.1
      (by decide) (by decide) (by decide)⟩

/-! ### C8: `BenchCase.invoke` -/

/-- Observable events of one `invoke` call. -/
inductive HookEvent
  | beforeRun (i : Nat)
  | workloadRun
  | afterRun (i : Nat)
  deriving DecidableEq, Repr

/-- `runFns` (utils.ts — not part of the sources; modelled from the
spec: "hooks in registration order", each hook awaited in turn).  Hooks
are represented by the events they emit and do not throw. -/
def runFnsTrace (evs : List HookEvent) (tr : List HookEvent) : List HookEvent :=
  evs.foldl (fun acc ev => acc ++ [ev]) tr

/-- `BenchCase.invoke` (suite.ts:181-188):
`await runFns(this.beforeHooks); try { return await this.fn(); } finally { await runFns(this.afterHooks); }`.
The workload either produces a value or throws/rejects (`Except`); the
finally clause appends the after-hook events whichever way the try block
ends, and the try block's outcome — value or exception — is the result. -/
def benchCaseInvoke (nBefore nAfter : Nat) (workload : Except Err Nat)
    (tr : List HookEvent) : List HookEvent × Except Err Nat :=
  let tr1 := runFnsTrace ((List.range nBefore).map .beforeRun) tr
  let tr2 := tr1 ++ [.workloadRun]
  let tr3 := runFnsTrace ((List.range nAfter).map .afterRun) tr2
  (tr3, workload)

theorem runFnsTrace_closed (evs tr : List HookEvent) : runFnsTrace evs tr = tr ++ evs := by
  induction evs generalizing tr with
  | nil => simp [runFnsTrace]
  | cons ev rest ih =>
    rw [runFnsTrace, List.foldl_cons]
    rw [show List.foldl (fun acc ev => acc ++ [ev]) (tr ++ [ev]) rest =
      runFnsTrace rest (tr ++ [ev]) from rfl, ih]
    simp

/-- **C8.** `BenchCase.invoke` runs the before-hooks in registration
order, then the workload, then the after-hooks in registration order;
the after-hooks run even when the workload throws or its promise
rejects (the trace equation holds for every `workload : Except`), and
the call's outcome is the workload's result — the value on success, the
original exception on failure. -/
theorem benchCase_invoke_contract (nBefore nAfter : Nat) (workload : Except Err Nat)
    (tr : List HookEvent) :
    benchCaseInvoke nBefore nAfter workload tr =
      (tr ++ (List.range nBefore).map .beforeRun ++ [.workloadRun] ++
        (List.range nAfter).map .afterRun, workload) := by
  simp [benchCaseInvoke, runFnsTrace_closed, List.append_assoc]

/-! ## Runner entry (`runner.ts`, `runSuite` and `RunSuiteError`)

`runSuite` calls `normalizeSuite(userSuite)` *before* entering its
try/catch, so errors thrown by suite normalisation escape unwrapped.
The catch block reads `context?.[kWorkingParams]` to decide whether to
attach scene coordinates — and nothing in `profiling.ts` ever assigns
that property, which the lemmas below establish for the embedding.
-/

/-- `BUILTIN_VARS` (utils.ts — not among the sources).  Modelled from
the spec: the reserved variables are `Name`, `Builder`, `Executor`. -/
def BUILTIN_VARS : List String := ["Name", "Builder", "Executor"]

/-- `toDisplayName` (utils.ts — not among the sources).  Modelled from
the spec: "for a raw value, if it is a primitive, its string form is
the display name"; values are modelled as already-stringified
primitives, so it is the identity here. -/
def toDisplayName (v : String) : String := v

/-- The duplicate-detection of the inner loop of `resolveParams`
(suite.ts:423-431): the first display name already seen, if any. -/
def firstDuplicate : List String → List String → Option String
  | [], _ => none
  | v :: rest, seen => if seen.contains v then some v else firstDuplicate rest (seen ++ [v])

/-- One iteration of the outer loop of `resolveParams`
(suite.ts:408-436): reserved-key check first, then the value loop with
the duplicate check, then the emptiness check. -/
def resolveOneParam (key : String) (values : List String) : Except String (List String) :=
  if BUILTIN_VARS.contains key then
    .error ("'" ++ key ++ "' is a builtin variable")
  else
    match firstDuplicate (values.map toDisplayName) [] with
    | some d => .error ("Parameter display name conflict (" ++ key ++ ": " ++ d ++ ")")
    | none =>
      if values.length = 0 then
        .error ("Suite parameter \"" ++ key ++ "\" must have a value")
      else
        .ok (values.map toDisplayName)

/-- `resolveParams` (suite.ts:399-439), specialised to list-form values
whose raw values are primitives already written as strings. -/
def resolveParams : List (String × List String) → Except String (List (String × List String))
  | [] => .ok []
  | (key, values) :: rest =>
    match resolveOneParam key values with
    | .error e => .error e
    | .ok ds =>
      match resolveParams rest with
      | .error e => .error e
      | .ok tail => .ok ((key, ds) :: tail)

/-- What escapes `runSuite`: either a raw error thrown by
`normalizeSuite` before the try block, or a `RunSuiteError`
(message, cause, optional serialised scene params). -/
inductive RunnerFailure
  | configError (msg : String)
  | runSuiteError (message : String) (cause : Err) (paramStr : Option String)
  deriving DecidableEq, Repr

/-- Whether a failure is a `RunSuiteError` (as opposed to a raw error
that escaped unwrapped). -/
def RunnerFailure.isRunSuiteError : RunnerFailure → Bool
  | .configError _ => false
  | .runSuiteError _ _ _ => true

/-- `RunSuiteError.fromScene` (runner.ts:68-76): message
`"Error occurred in scene " ++ s` with the serialised display-name
params attached. -/
def runSuiteErrorFromScene (paramStr : String) (cause : Err) : RunnerFailure :=
  .runSuiteError ("Error occurred in scene " ++ paramStr) cause (some paramStr)

/-- The catch block of `runSuite` (runner.ts:169-175): if
`context?.[kWorkingParams]` is set, wrap via `fromScene`, otherwise use
the generic message. -/
def runSuiteCatch (wp : Option String) (e : Err) : RunnerFailure :=
  match wp with
  | some p => runSuiteErrorFromScene p e
  | none => .runSuiteError "Error occurred when running suite." e none

/-- `runSuite` (runner.ts:154-176).  `params` is the suite's parameter
definition consumed by `normalizeSuite`; `baselineErr` abstracts whether
`convertBaseline` throws; `beforeAllErr` whether the `beforeAll` hook
throws (the context object exists by then, runner.ts:163-164); the
profiling run is the interpreter.  Everything after normalisation runs
inside the try block. -/
def runSuiteModel (params : List (String × List String))
    (baselineErr beforeAllErr : Option Err) (P : Nat → ProfilerModel) (m : Nat)
    (specs : List SceneSpec) : Except RunnerFailure PContext :=
  match resolveParams params with
  | .error msg => .error (.configError msg)
  | .ok _ =>
    match baselineErr with
    | some e => .error (runSuiteCatch none e)
    | none =>
      match beforeAllErr with
      | some e => .error (runSuiteCatch PContext.fresh.workingParams e)
      | none =>
        match contextRun P m specs with
        | (ctx, some e) => .error (runSuiteCatch ctx.workingParams e)
        | (ctx, none) => .ok ctx

/-! ### `kWorkingParams` is never assigned by the profiling context -/

theorem runStartHooks_wp (P : Nat → ProfilerModel) (ps : List Nat) :
    ∀ ctx, (runStartHooks P ps ctx).1.workingParams = ctx.workingParams := by
  induction ps with
  | nil => intro ctx; rfl
  | cons p rest ih =>
    intro ctx
    rw [runStartHooks]
    cases (P p).startErr with
    | some e => rfl
    | none => exact ih _

theorem runSceneHooks_wp (P : Nat → ProfilerModel) (s : Nat) (ps : List Nat) :
    ∀ ctx, (runSceneHooks P s ps ctx).1.workingParams = ctx.workingParams := by
  induction ps with
  | nil => intro ctx; rfl
  | cons p rest ih =>
    intro ctx
    rw [runSceneHooks]
    cases (P p).sceneErr s with
    | some e => rfl
    | none => exact ih _

theorem runCaseHooks_wp (P : Nat → ProfilerModel) (s c : Nat) (ps : List Nat) :
    ∀ ctx ms, (runCaseHooks P s c ps ctx ms).1.workingParams = ctx.workingParams := by
  induction ps with
  | nil => intro ctx ms; rfl
  | cons p rest ih =>
    intro ctx ms
    rw [runCaseHooks]
    cases ((P p).caseBeh s c).err with
    | some e => rfl
    | none => exact ih _ _

theorem runFinishHooks_wp (P : Nat → ProfilerModel) (ps : List Nat) :
    ∀ ctx, (runFinishHooks P ps ctx).1.workingParams = ctx.workingParams := by
  induction ps with
  | nil => intro ctx; rfl
  | cons p rest ih =>
    intro ctx
    rw [runFinishHooks]
    cases (P p).finishErr with
    | some e => rfl
    | none => exact ih _

theorem runCases_wp (P : Nat → ProfilerModel) (m s : Nat) (ics : List (Nat × String)) :
    ∀ ctx, (runCases P m s ics ctx).1.workingParams = ctx.workingParams := by
  induction ics with
  | nil => intro ctx; rfl
  | cons ic rest ih =>
    intro ctx
    obtain ⟨c, name⟩ := ic
    rw [runCases]
    have hwp := runCaseHooks_wp P s c (List.range m) ctx []
    rcases hres : runCaseHooks P s c (List.range m) ctx [] with ⟨ctx', ms, err⟩
    rw [hres] at hwp
    cases err with
    | some e => exact hwp
    | none => exact (ih _).trans hwp

theorem runScene_wp (P : Nat → ProfilerModel) (m s : Nat) (spec : SceneSpec) :
    ∀ ctx, (runScene P m s spec ctx).1.workingParams = ctx.workingParams := by
  intro ctx
  rw [runScene]
  cases spec.setupErr with
  | some e => rfl
  | none =>
    dsimp only
    have hwp := runSceneHooks_wp P s (List.range m) ctx
    rcases hres : runSceneHooks P s (List.range m) ctx with ⟨ctxh, err⟩
    rw [hres] at hwp
    cases err with
    | some e => exact hwp
    | none => exact (runCases_wp P m s spec.cases.enum _).trans hwp

theorem runScenes_wp (P : Nat → ProfilerModel) (m : Nat) (sl : List (Nat × SceneSpec)) :
    ∀ ctx, (runScenes P m sl ctx).1.workingParams = ctx.workingParams := by
  induction sl with
  | nil => intro ctx; rfl
  | cons ss rest ih =>
    intro ctx
    obtain ⟨s, spec⟩ := ss
    rw [runScenes]
    have hwp := runScene_wp P m s spec ctx
    rcases hres : runScene P m s spec ctx with ⟨ctx', err⟩
    rw [hres] at hwp
    cases err with
    | some e => exact hwp
    | none => exact (ih _).trans hwp

/-- Nothing during a run assigns the `kWorkingParams` property: it keeps
its initial absent value. -/
theorem contextRun_wp (P : Nat → ProfilerModel) (m : Nat) (specs : List SceneSpec) :
    (contextRun P m specs).1.workingParams = none := by
  rw [contextRun]
  have h1 := runStartHooks_wp P (List.range m) PContext.fresh
  rcases hres1 : runStartHooks P (List.range m) PContext.fresh with ⟨ctx1, err1⟩
  rw [hres1] at h1
  cases err1 with
  | some e => exact h1
  | none =>
    dsimp only
    have h2 := runScenes_wp P m specs.enum ctx1
    rcases hres2 : runScenes P m specs.enum ctx1 with ⟨ctx2, err2⟩
    rw [hres2] at h2
    cases err2 with
    | some e => exact h2.trans h1
    | none => exact (runFinishHooks_wp P (List.range m) ctx2).trans (h2.trans h1)

deriving instance DecidableEq for Except

/-- **C6 (counterexample).** First input: a suite whose parameter
definition uses the reserved key `Name` — `normalizeSuite` throws from
outside the try block, so `runSuite` raises the raw configuration error,
not a `RunSuiteError`.  Second input: a profiler throws (error 5) while
the first scene is in progress — the failure is wrapped, but with the
generic message and no scene coordinates, because `kWorkingParams` is
never assigned. -/
theorem runSuite_failure_wrapping_counterexample :
    runSuiteModel [("Name", ["a"])] none none (fun _ => cleanProfiler) 0 [] =
        .error (.configError "'Name' is a builtin variable") ∧
      RunnerFailure.isRunSuiteError (.configError "'Name' is a builtin variable") = false ∧
      runSuiteModel [] none none (fun _ => throwingCaseProfiler) 1 [⟨["a"], none, 0⟩] =
        .error (.runSuiteError "Error occurred when running suite." 5 none) := by
  refine ⟨by decide, rfl, by decide⟩

/-- **C6 (amended).** Failures raised inside `runSuite`'s try block —
baseline resolution, the `beforeAll` hook, and anything thrown during
the profiling run (setup, hooks, workloads, profilers) — are wrapped as
a `RunSuiteError` carrying the original error as its cause; but the
wrapper always uses the generic message and carries no scene
coordinates, because nothing ever assigns `kWorkingParams` on the
context; and errors thrown by suite normalisation escape unwrapped,
since `normalizeSuite` runs before the try block. -/
theorem runSuite_error_wrapping (params : List (String × List String))
    (baselineErr beforeAllErr : Option Err) (P : Nat → ProfilerModel) (m : Nat)
    (specs : List SceneSpec) :
    (∀ msg, resolveParams params = .error msg →
      runSuiteModel params baselineErr beforeAllErr P m specs = .error (.configError msg)) ∧
      (∀ ds, resolveParams params = .ok ds →
        (∀ e, baselineErr = some e →
          runSuiteModel params baselineErr beforeAllErr P m specs =
            .error (.runSuiteError "Error occurred when running suite." e none)) ∧
        (baselineErr = none → ∀ e, beforeAllErr = some e →
          runSuiteModel params baselineErr beforeAllErr P m specs =
            .error (.runSuiteError "Error occurred when running suite." e none)) ∧
        (baselineErr = none → beforeAllErr = none →
          ∀ ctx e, contextRun P m specs = (ctx, some e) →
          runSuiteModel params baselineErr beforeAllErr P m specs =
            .error (.runSuiteError "Error occurred when running suite." e none)) ∧
        (baselineErr = none → beforeAllErr = none →
          ∀ ctx, contextRun P m specs = (ctx, none) →
          runSuiteModel params baselineErr beforeAllErr P m specs = .ok ctx)) := by
  constructor
  · intro msg hmsg
    simp only [runSuiteModel, hmsg]
  · intro ds hds
    refine ⟨?_, ?_, ?_, ?_⟩
    · intro e he
      simp only [runSuiteModel, hds, he]
      rfl
    · intro hb e he
      simp only [runSuiteModel, hds, hb, he]
      rfl
    · intro hb hbe ctx e hctx
      have hwp := contextRun_wp P m specs
      rw [hctx] at hwp
      simp only [runSuiteModel, hds, hb, hbe, hctx]
      rw [hwp]
      rfl
    · intro hb hbe ctx hctx
      simp only [runSuiteModel, hds, hb, hbe, hctx]

/-- **C6 (witness).** A baseline error 3 is wrapped with the generic
message and no coordinates; a clean run returns the context. -/
theorem runSuite_error_wrapping_witness :
    runSuiteModel [("x", ["1"])] (some 3) none (fun _ => cleanProfiler) 0 [] =
        .error (.runSuiteError "Error occurred when running suite." 3 none) ∧
      runSuiteModel [("x", ["1"])] none none (fun _ => cleanProfiler) 1 [⟨["a"], none, 0⟩] =
        .ok (contextRun (fun _ => cleanProfiler) 1 [⟨["a"], none, 0⟩]).1 :=
  ⟨((runSuite_error_wrapping [("x", ["1"])] (some 3) none (fun _ => cleanProfiler) 0
      []).2 [("x", ["1"])] (by decide)).1 3 rfl,
    ((runSuite_error_wrapping [("x", ["1"])] none none (fun _ => cleanProfiler) 1
      [⟨["a"], none, 0⟩]).2 [("x", ["1"])] (by decide)).2.2.2 rfl rfl
      (contextRun (fun _ => cleanProfiler) 1 [⟨["a"], none, 0⟩]).1 (by decide)⟩

/-! ## Result summary (`summary.ts`, `Summary.sort` / `find` / `findAll`)

A flattened row is an association list from property names to display
values; keys outside the variable set play the role of the hidden
symbol-keyed fields (`kMetrics`), which is exactly how two rows can
agree on every variable yet differ.  `vars` is the insertion-ordered
map from variable names to their observed values (a JS `Set`, so the
value lists are duplicate-free when built by `addToVar`).
-/

/-- A flattened result row. -/
abbrev Row := List (String × String)

/-- `properties[k]`: the value of property `k`, if present. -/
def rowGet (row : Row) (k : String) : Option String :=
  (row.find? (fun e => e.1 == k)).map (·.2)

/-- `copy[axis] = value` on an object copy (summary.ts:676-677). -/
def rowSet (row : Row) (k v : String) : Row :=
  if row.any (fun e => e.1 == k) then
    row.map (fun e => if e.1 == k then (k, v) else e)
  else
    row ++ [(k, v)]

/-- `this.vars.get(k)` as an ordered list of observed values. -/
def valuesOf (vars : List (String × List String)) (k : String) : List String :=
  (((vars.find? (fun e => e.1 == k)).map (·.2)).getD [])

/-- `indexOf(s, k, v)` (summary.ts:508-516): position of `v` in the
iteration order of the set. -/
def idxOfVal (l : List String) (v : String) : Nat :=
  List.indexOf v l

/-- The `sort` factor computation (summary.ts:618-629), right to left:
returns the factors list (one per key, most significant first) and the
final `factor`, the capacity of `iMap`. -/
def sortFactors (vars : List (String × List String)) : List String → List Nat × Nat
  | [] => ([], 1)
  | k :: rest =>
    let fr := sortFactors vars rest
    (fr.2 :: fr.1, fr.2 * (valuesOf vars k).length)

/-- `Summary.getIndex` (summary.ts:640-653): the sum over the sort keys
of `factors[i] * indexOf(vars[k], properties[k])`. -/
def getIndex (vars : List (String × List String)) (keys : List String) (row : Row) : Nat :=
  ((keys.zip (sortFactors vars keys).1).map
    (fun kf => kf.2 * idxOfVal (valuesOf vars kf.1) ((rowGet row kf.1).getD ""))).sum

/-- `this.factors[this.keys.indexOf(axis)]` (summary.ts:679). -/
def factorOf (vars : List (String × List String)) (keys : List String) (axis : String) : Nat :=
  (sortFactors vars keys).1.getD (List.indexOf axis keys) 0

/-- `this.iMap[i]`: rows are written in table order during `sort`
(summary.ts:631-636), so the surviving entry is the last row of the
table with that index; unwritten entries are `undefined`. -/
def iMapAt (vars : List (String × List String)) (keys : List String) (table : List Row)
    (i : Nat) : Option Row :=
  (table.filter (fun row => getIndex vars keys row == i)).getLast?

/-- `Summary.find` (summary.ts:670-672). -/
def findModel (vars : List (String × List String)) (keys : List String) (table : List Row)
    (coords : Row) : Option Row :=
  iMapAt vars keys table (getIndex vars keys coords)

/-- `Summary.findAll` (summary.ts:674-684): set the axis to its first
observed value, compute the base index, and step by the axis factor. -/
def findAllModel (vars : List (String × List String)) (keys : List String)
    (table : List Row) (coords : Row) (axis : String) : List (Option Row) :=
  let values := valuesOf vars axis
  let base := getIndex vars keys (rowSet coords axis (values.headD ""))
  let f := factorOf vars keys axis
  (List.range values.length).map (fun i => iMapAt vars keys table (base + f * i))

/-- The mixed-radix value of a digit/radix list, most significant digit
first — the number the specification says `sort` assigns to each row. -/
def mixedRadix : List (Nat × Nat) → Nat
  | [] => 0
  | dr :: rest => dr.1 * ((rest.map (·.2)).prod) + mixedRadix rest

/-- The digits of a row under a key order: position of the row's value
in the variable's observed-value set, radix the set's size. -/
def rowDigits (vars : List (String × List String)) (keys : List String) (row : Row) :
    List (Nat × Nat) :=
  keys.map fun k =>
    (idxOfVal (valuesOf vars k) ((rowGet row k).getD ""), (valuesOf vars k).length)

/-! ### The index is a mixed-radix number -/

theorem sortFactors_total (vars : List (String × List String)) :
    ∀ keys : List String,
      (sortFactors vars keys).2 = (keys.map fun k => (valuesOf vars k).length).prod
  | [] => rfl
  | k :: rest => by
    rw [sortFactors]
    dsimp only
    rw [sortFactors_total vars rest]
    rw [List.map_cons, List.prod_cons]
    ring

theorem getIndex_cons (vars : List (String × List String)) (k : String)
    (rest : List String) (row : Row) :
    getIndex vars (k :: rest) row =
      (sortFactors vars rest).2 *
        idxOfVal (valuesOf vars k) ((rowGet row k).getD "") +
        getIndex vars rest row := by
  rw [getIndex, getIndex, sortFactors]
  dsimp only
  rw [List.zip_cons_cons, List.map_cons, List.sum_cons]

theorem rowDigits_radices (vars : List (String × List String)) (keys : List String)
    (row : Row) :
    (rowDigits vars keys row).map (·.2) = keys.map fun k => (valuesOf vars k).length := by
  rw [rowDigits, List.map_map]
  rfl

/-- **Part 1 of C9**: `getIndex` computes exactly the mixed-radix number
of the row's digit/radix list, most significant digit first. -/
theorem getIndex_eq_mixedRadix (vars : List (String × List String)) :
    ∀ (keys : List String) (row : Row),
      getIndex vars keys row = mixedRadix (rowDigits vars keys row)
  | [], _ => rfl
  | k :: rest, row => by
    rw [getIndex_cons, rowDigits, List.map_cons, mixedRadix]
    dsimp only
    rw [show (List.map (fun k => (idxOfVal (valuesOf vars k) ((rowGet row k).getD ""),
        (valuesOf vars k).length)) rest) = rowDigits vars rest row from rfl]
    rw [rowDigits_radices, ← sortFactors_total, ← getIndex_eq_mixedRadix vars rest row]
    ring

theorem mixedRadix_lt : ∀ l : List (Nat × Nat), (∀ dr ∈ l, dr.1 < dr.2) →
    mixedRadix l < (l.map (·.2)).prod
  | [], _ => by simp [mixedRadix]
  | dr :: rest, h => by
    obtain ⟨d, r⟩ := dr
    have hd : d < r := h (d, r) (by simp)
    have ih := mixedRadix_lt rest (fun x hx => h x (by simp [hx]))
    rw [mixedRadix, List.map_cons, List.prod_cons]
    dsimp only
    calc d * (rest.map (·.2)).prod + mixedRadix rest
        < d * (rest.map (·.2)).prod + (rest.map (·.2)).prod := by omega
      _ = (d + 1) * (rest.map (·.2)).prod := by ring
      _ ≤ r * (rest.map (·.2)).prod := Nat.mul_le_mul_right _ hd

theorem mixedRadix_inj : ∀ l₁ l₂ : List (Nat × Nat),
    l₁.map (·.2) = l₂.map (·.2) →
    (∀ dr ∈ l₁, dr.1 < dr.2) → (∀ dr ∈ l₂, dr.1 < dr.2) →
    mixedRadix l₁ = mixedRadix l₂ → l₁ = l₂
  | [], [], _, _, _, _ => rfl
  | [], dr :: _, hr, _, _, _ => by simp at hr
  | dr :: _, [], hr, _, _, _ => by simp at hr
  | dr₁ :: rest₁, dr₂ :: rest₂, hr, h₁, h₂, he => by
    obtain ⟨d₁, r₁⟩ := dr₁
    obtain ⟨d₂, r₂⟩ := dr₂
    rw [List.map_cons, List.map_cons] at hr
    have hrr : r₁ = r₂ := by simpa using List.head_eq_of_cons_eq hr
    have hrt : rest₁.map (·.2) = rest₂.map (·.2) := List.tail_eq_of_cons_eq hr
    have hP : (rest₁.map (·.2)).prod = (rest₂.map (·.2)).prod := by rw [hrt]
    have hv₁ := mixedRadix_lt rest₁ (fun x hx => h₁ x (by simp [hx]))
    have hv₂ := mixedRadix_lt rest₂ (fun x hx => h₂ x (by simp [hx]))
    rw [mixedRadix, mixedRadix] at he
    dsimp only at he
    rw [← hP] at he hv₂
    have hd : d₁ = d₂ := by
      rcases Nat.lt_trichotomy d₁ d₂ with hlt | heq | hgt
      · exfalso
        have : d₁ * (rest₁.map (·.2)).prod + mixedRadix rest₁ <
            d₂ * (rest₁.map (·.2)).prod + mixedRadix rest₂ := by
          calc d₁ * (rest₁.map (·.2)).prod + mixedRadix rest₁
              < (d₁ + 1) * (rest₁.map (·.2)).prod := by
                rw [Nat.succ_mul]; omega
            _ ≤ d₂ * (rest₁.map (·.2)).prod := Nat.mul_le_mul_right _ hlt
            _ ≤ d₂ * (rest₁.map (·.2)).prod + mixedRadix rest₂ := Nat.le_add_right _ _
        omega
      · exact heq
      · exfalso
        have : d₂ * (rest₁.map (·.2)).prod + mixedRadix rest₂ <
            d₁ * (rest₁.map (·.2)).prod + mixedRadix rest₁ := by
          calc d₂ * (rest₁.map (·.2)).prod + mixedRadix rest₂
              < (d₂ + 1) * (rest₁.map (·.2)).prod := by
                rw [Nat.succ_mul]; omega
            _ ≤ d₁ * (rest₁.map (·.2)).prod := Nat.mul_le_mul_right _ hgt
            _ ≤ d₁ * (rest₁.map (·.2)).prod + mixedRadix rest₁ := Nat.le_add_right _ _
        omega
    subst hd
    have hrest : mixedRadix rest₁ = mixedRadix rest₂ := by omega
    have := mixedRadix_inj rest₁ rest₂ hrt
      (fun x hx => h₁ x (by simp [hx])) (fun x hx => h₂ x (by simp [hx])) hrest
    rw [this, hrr]

/-! ### Recovering rows: `find` -/

theorem getIndex_inj_on_keys (vars : List (String × List String)) (keys : List String)
    (r₁ r₂ : Row)
    (hv₁ : ∀ k ∈ keys, ∃ v, rowGet r₁ k = some v ∧ v ∈ valuesOf vars k)
    (hv₂ : ∀ k ∈ keys, ∃ v, rowGet r₂ k = some v ∧ v ∈ valuesOf vars k)
    (he : getIndex vars keys r₁ = getIndex vars keys r₂) :
    ∀ k ∈ keys, rowGet r₁ k = rowGet r₂ k := by
  rw [getIndex_eq_mixedRadix, getIndex_eq_mixedRadix] at he
  have hbound : ∀ (r : Row),
      (∀ k ∈ keys, ∃ v, rowGet r k = some v ∧ v ∈ valuesOf vars k) →
      ∀ dr ∈ rowDigits vars keys r, dr.1 < dr.2 := by
    intro r hr dr hdr
    obtain ⟨k, hk, rfl⟩ := List.mem_map.mp hdr
    obtain ⟨v, hv, hvm⟩ := hr k hk
    dsimp only
    rw [hv]
    exact List.indexOf_lt_length.mpr hvm
  have hdig : rowDigits vars keys r₁ = rowDigits vars keys r₂ :=
    mixedRadix_inj _ _ (by rw [rowDigits_radices, rowDigits_radices])
      (hbound r₁ hv₁) (hbound r₂ hv₂) he
  rw [rowDigits, rowDigits, List.map_eq_map_iff] at hdig
  intro k hk
  obtain ⟨v₁, hg₁, hm₁⟩ := hv₁ k hk
  obtain ⟨v₂, hg₂, hm₂⟩ := hv₂ k hk
  have := hdig k hk
  rw [Prod.mk.injEq] at this
  rw [hg₁, hg₂] at this
  rw [hg₁, hg₂]
  rw [(List.indexOf_inj hm₁ hm₂).mp this.1]

theorem getLast?_of_all_eq {α : Type} {l : List α} {a : α} (hne : l ≠ [])
    (hall : ∀ b ∈ l, b = a) : l.getLast? = some a := by
  have hsome := (List.getLast?_isSome (l := l)).mpr hne
  obtain ⟨b, hb⟩ := Option.isSome_iff_exists.mp hsome
  rw [hb, hall b (List.mem_of_mem_getLast? hb)]

/-- **Part 2 of C9**: provided every row's variable values lie in `vars`
and no two table rows agree on all sort keys, `find` applied to a table
row's coordinates returns that row. -/
theorem summary_find_self (vars : List (String × List String)) (keys : List String)
    (table : List Row)
    (hvals : ∀ row ∈ table, ∀ k ∈ keys, ∃ v, rowGet row k = some v ∧ v ∈ valuesOf vars k)
    (hdist : ∀ r₁ ∈ table, ∀ r₂ ∈ table,
      (∀ k ∈ keys, rowGet r₁ k = rowGet r₂ k) → r₁ = r₂) :
    ∀ row ∈ table, findModel vars keys table row = some row := by
  intro row hrow
  rw [findModel, iMapAt]
  have hmem : row ∈ table.filter (fun r => getIndex vars keys r == getIndex vars keys row) :=
    List.mem_filter.mpr ⟨hrow, by simp⟩
  refine getLast?_of_all_eq (List.ne_nil_of_mem hmem) ?_
  intro b hb
  obtain ⟨hbt, hbe⟩ := List.mem_filter.mp hb
  have hbe' : getIndex vars keys b = getIndex vars keys row := by
    simpa using hbe
  exact hdist b hbt row hrow
    (getIndex_inj_on_keys vars keys b row (hvals b hbt) (hvals row hrow) hbe')

/-! ### `rowSet` and `rowGet` -/

theorem find?_update_self (k v : String) : ∀ row : Row,
    row.any (fun e => e.1 == k) = true →
    (row.map fun e => if e.1 == k then (k, v) else e).find? (fun e => e.1 == k) =
      some (k, v)
  | [], h => by simp at h
  | e :: rest, h => by
    rw [List.map_cons]
    rcases hbe : (e.1 == k) with _ | _
    · have h' : rest.any (fun e => e.1 == k) = true := by
        rw [List.any_cons, hbe, Bool.false_or] at h
        exact h
      rw [if_neg Bool.false_ne_true]
      rw [List.find?_cons_of_neg _ (by rw [hbe]; exact Bool.false_ne_true)]
      exact find?_update_self k v rest h'
    · rw [if_pos rfl]
      exact List.find?_cons_of_pos _ (by simp)

theorem find?_append_of_none {α : Type} (p : α → Bool) :
    ∀ (l₁ l₂ : List α), l₁.find? p = none → (l₁ ++ l₂).find? p = l₂.find? p
  | [], _, _ => rfl
  | a :: rest, l₂, h => by
    rw [List.find?_cons] at h
    rcases hpa : p a with _ | _
    · rw [List.cons_append, List.find?_cons, hpa]
      rw [hpa] at h
      exact find?_append_of_none p rest l₂ h
    · rw [hpa] at h
      cases h

theorem find?_concat_of_neg {α : Type} (p : α → Bool) (b : α) (hb : p b = false) :
    ∀ l : List α, (l ++ [b]).find? p = l.find? p
  | [] => by
    rw [List.nil_append, List.find?_cons_of_neg _ (by rw [hb]; exact Bool.false_ne_true)]
  | a :: rest => by
    rw [List.cons_append, List.find?_cons, List.find?_cons]
    rcases hpa : p a with _ | _
    · exact find?_concat_of_neg p b hb rest
    · rfl

theorem find?_update_other (k v k' : String) (hne : k' ≠ k) : ∀ row : Row,
    (row.map fun e => if e.1 == k then (k, v) else e).find? (fun e => e.1 == k') =
      row.find? (fun e => e.1 == k')
  | [] => rfl
  | e :: rest => by
    rw [List.map_cons]
    rcases hbe : (e.1 == k) with _ | _
    · rw [if_neg Bool.false_ne_true, List.find?_cons, List.find?_cons]
      rcases hpe : (e.1 == k') with _ | _
      · exact find?_update_other k v k' hne rest
      · rfl
    · rw [if_pos rfl]
      have hek : e.1 = k := by simpa using hbe
      have h1 : (((k, v) : String × String).1 == k') = false := by
        simp only [beq_eq_false_iff_ne, ne_eq]
        exact fun hc => hne hc.symm
      have h2 : (e.1 == k') = false := by
        simp only [beq_eq_false_iff_ne, ne_eq, hek]
        exact fun hc => hne hc.symm
      rw [List.find?_cons_of_neg _ (by rw [h1]; exact Bool.false_ne_true)]
      rw [List.find?_cons_of_neg _ (by rw [h2]; exact Bool.false_ne_true)]
      exact find?_update_other k v k' hne rest

theorem rowGet_rowSet_self (row : Row) (k v : String) :
    rowGet (rowSet row k v) k = some v := by
  rw [rowSet]
  split
  · rename_i hany
    rw [rowGet, find?_update_self k v row hany]
    rfl
  · rename_i hany
    have hnone : row.find? (fun e => e.1 == k) = none := by
      rw [List.find?_eq_none]
      intro e he
      by_contra hek
      exact hany (List.any_eq_true.mpr ⟨e, he, by simpa using hek⟩)
    rw [rowGet, find?_append_of_none _ row _ hnone]
    simp

theorem rowGet_rowSet_ne (row : Row) (k v k' : String) (hne : k' ≠ k) :
    rowGet (rowSet row k v) k' = rowGet row k' := by
  rw [rowSet]
  split
  · rw [rowGet, find?_update_other k v k' hne row]
    rfl
  · rw [rowGet, rowGet, find?_concat_of_neg _ _
      (by simp only [beq_eq_false_iff_ne, ne_eq]; exact fun hc => hne hc.symm) row]

/-! ### `findAll`: stepping along one axis -/

/-- The part of a row's index contributed by all sort keys other than
`axis`. -/
def getIndexOmitting (vars : List (String × List String)) (keys : List String)
    (coords : Row) (axis : String) : Nat :=
  ((keys.zip (sortFactors vars keys).1).map
    (fun kf => if kf.1 == axis then 0
      else kf.2 * idxOfVal (valuesOf vars kf.1) ((rowGet coords kf.1).getD ""))).sum

theorem getIndexOmitting_cons (vars : List (String × List String)) (k : String)
    (rest : List String) (coords : Row) (axis : String) :
    getIndexOmitting vars (k :: rest) coords axis =
      (if k == axis then 0
        else (sortFactors vars rest).2 *
          idxOfVal (valuesOf vars k) ((rowGet coords k).getD "")) +
        getIndexOmitting vars rest coords axis := by
  rw [getIndexOmitting, getIndexOmitting, sortFactors]
  dsimp only
  rw [List.zip_cons_cons, List.map_cons, List.sum_cons]

theorem getIndex_rowSet_not_mem (vars : List (String × List String)) (coords : Row)
    (axis v : String) (keys : List String) (hax : axis ∉ keys) :
    getIndex vars keys (rowSet coords axis v) = getIndex vars keys coords := by
  rw [getIndex, getIndex]
  congr 1
  refine List.map_congr_left ?_
  intro kf hkf
  obtain ⟨h1, -⟩ := List.of_mem_zip (by rwa [← Prod.mk.eta (p := kf)] at hkf)
  rw [rowGet_rowSet_ne coords axis v kf.1 (fun hc => hax (hc ▸ h1))]

theorem getIndexOmitting_not_mem (vars : List (String × List String)) (coords : Row)
    (axis : String) (keys : List String) (hax : axis ∉ keys) :
    getIndexOmitting vars keys coords axis = getIndex vars keys coords := by
  rw [getIndexOmitting, getIndex]
  congr 1
  refine List.map_congr_left ?_
  intro kf hkf
  obtain ⟨h1, -⟩ := List.of_mem_zip (by rwa [← Prod.mk.eta (p := kf)] at hkf)
  rw [if_neg ?_]
  intro hc
  exact hax ((by simpa using hc : kf.1 = axis) ▸ h1)

theorem getIndex_rowSet (vars : List (String × List String)) (coords : Row)
    (axis v : String) :
    ∀ keys : List String, keys.Nodup → axis ∈ keys →
      getIndex vars keys (rowSet coords axis v) =
        getIndexOmitting vars keys coords axis +
          factorOf vars keys axis * idxOfVal (valuesOf vars axis) v
  | [], _, hax => absurd hax (List.not_mem_nil axis)
  | k :: rest, hnd, hax => by
    rw [getIndex_cons, getIndexOmitting_cons]
    by_cases hk : k = axis
    · subst hk
      have hnr : k ∉ rest := (List.nodup_cons.mp hnd).1
      rw [rowGet_rowSet_self, getIndex_rowSet_not_mem vars coords k v rest hnr]
      rw [getIndexOmitting_not_mem vars coords k rest hnr]
      rw [if_pos (by simp)]
      rw [factorOf, List.indexOf_cons_self]
      rw [show (sortFactors vars (k :: rest)).1 =
        (sortFactors vars rest).2 :: (sortFactors vars rest).1 from by rw [sortFactors]]
      rw [List.getD_cons_zero, Option.getD_some]
      omega
    · have hax' : axis ∈ rest := by
        rcases List.mem_cons.mp hax with hc | hc
        · exact absurd hc.symm hk
        · exact hc
      rw [rowGet_rowSet_ne coords axis v k hk]
      rw [getIndex_rowSet vars coords axis v rest (List.nodup_cons.mp hnd).2 hax']
      rw [if_neg (by simpa using hk)]
      have hfac : factorOf vars (k :: rest) axis = factorOf vars rest axis := by
        rw [factorOf, factorOf, List.indexOf_cons_ne _ hk, sortFactors]
        dsimp only
        rw [show Nat.succ (List.indexOf axis rest) = List.indexOf axis rest + 1 from rfl]
        rw [List.getD_cons_succ]
      rw [hfac]
      omega

theorem summary_findAll_eq (vars : List (String × List String)) (keys : List String)
    (table : List Row) (coords : Row) (axis : String)
    (haxis : axis ∈ keys) (hnd : keys.Nodup) (hvnd : (valuesOf vars axis).Nodup) :
    findAllModel vars keys table coords axis =
      (valuesOf vars axis).map fun v => findModel vars keys table (rowSet coords axis v) := by
  simp only [findAllModel]
  refine List.ext_getElem (by simp) ?_
  intro i h1 h2
  rw [List.getElem_map, List.getElem_map, List.getElem_range]
  rw [findModel]
  congr 1
  have hlen : i < (valuesOf vars axis).length := by simpa using h2
  have hlen0 : 0 < (valuesOf vars axis).length := by omega
  have hhead : (valuesOf vars axis).headD "" = (valuesOf vars axis)[0] := by
    rw [List.headD_eq_head?, List.head?_eq_getElem?, List.getElem?_eq_getElem hlen0,
      Option.getD_some]
  rw [hhead]
  have hbase := getIndex_rowSet vars coords axis ((valuesOf vars axis)[0]) keys hnd haxis
  have hstep := getIndex_rowSet vars coords axis ((valuesOf vars axis)[i]) keys hnd haxis
  rw [hbase, hstep]
  simp only [idxOfVal]
  rw [List.indexOf_getElem hvnd 0 hlen0, List.indexOf_getElem hvnd i hlen]
  omega

/-- **C9 (counterexample).** Two distinct rows that agree on every
variable (they differ only in the hidden metrics field): `find` applied
to the first row's variable values returns the *second* row, because
`sort` writes rows into `iMap` in table order and the later row
overwrites the earlier one at the same index. -/
theorem summary_find_duplicate_coords :
    findModel [("Name", ["a"])] ["Name"]
        [[("Name", "a"), ("m", "1")], [("Name", "a"), ("m", "2")]]
        [("Name", "a"), ("m", "1")] =
      some [("Name", "a"), ("m", "2")] ∧
      ([("Name", "a"), ("m", "1")] : Row) ≠ [("Name", "a"), ("m", "2")] := by
  constructor
  · decide
  · decide

/-- **C9 (amended).** After `Summary.sort(varOrder)`: (1) each row's
index is the mixed-radix number whose digits are the positions of the
row's variable values in their `vars` sets, most-significant digit first
in `varOrder`, radices the set sizes; (2) *provided* every table row's
values on the sort keys lie in the observed `vars` sets and no two table
rows agree on all sort keys (rows may still differ in hidden fields),
`find` applied to a row's variable values returns that row — with
coordinate duplicates the last table row at those coordinates wins;
(3) for duplicate-free `varOrder` containing `axis`, `findAll(coords,
axis)` returns, for each observed value of `axis` in observation order,
exactly what `find` returns at `coords` with `axis` replaced by that
value.  Together, `find`/`findAll` reconstruct the table under the
stated injectivity proviso. -/
theorem summary_sort_find_findAll (vars : List (String × List String))
    (keys : List String) (table : List Row) :
    (∀ row, getIndex vars keys row = mixedRadix (rowDigits vars keys row)) ∧
      ((∀ row ∈ table, ∀ k ∈ keys, ∃ v, rowGet row k = some v ∧ v ∈ valuesOf vars k) →
        (∀ r₁ ∈ table, ∀ r₂ ∈ table, (∀ k ∈ keys, rowGet r₁ k = rowGet r₂ k) → r₁ = r₂) →
        ∀ row ∈ table, findModel vars keys table row = some row) ∧
      (∀ coords axis, axis ∈ keys → keys.Nodup → (valuesOf vars axis).Nodup →
        findAllModel vars keys table coords axis =
          (valuesOf vars axis).map fun v => findModel vars keys table (rowSet coords axis v)) :=
  ⟨fun row => getIndex_eq_mixedRadix vars keys row,
    fun hvals hdist => summary_find_self vars keys table hvals hdist,
    fun coords axis h1 h2 h3 => summary_findAll_eq vars keys table coords axis h1 h2 h3⟩

/-- Variables of the witness summary. -/
def wVars : List (String × List String) := [("Name", ["a", "b"])]

/-- First row of the witness table. -/
def wRowA : Row := [("Name", "a"), ("m", "1")]

/-- Second row of the witness table. -/
def wRowB : Row := [("Name", "b"), ("m", "2")]

/-- The witness table. -/
def wTable : List Row := [wRowA, wRowB]

/-- **C9 (witness).** A two-row summary over one variable: the index is
the mixed-radix number, `find` returns each row at its coordinates, and
`findAll` sweeps `Name` through `find`. -/
theorem summary_sort_find_findAll_witness :
    getIndex wVars ["Name"] wRowB = mixedRadix (rowDigits wVars ["Name"] wRowB) ∧
      findModel wVars ["Name"] wTable wRowA = some wRowA ∧
      findModel wVars ["Name"] wTable wRowB = some wRowB ∧
      findAllModel wVars ["Name"] wTable [("Name", "a")] "Name" =
        (valuesOf wVars "Name").map fun v =>
          findModel wVars ["Name"] wTable (rowSet [("Name", "a")] "Name" v) := by
  have hvals : ∀ row ∈ wTable, ∀ k ∈ ["Name"],
      ∃ v, rowGet row k = some v ∧ v ∈ valuesOf wVars k := by
    intro row hrow k hk
    fin_cases hrow <;> fin_cases hk
    · exact ⟨"a", rfl, by decide⟩
    · exact ⟨"b", rfl, by decide⟩
  have hdist : ∀ r₁ ∈ wTable, ∀ r₂ ∈ wTable,
      (∀ k ∈ ["Name"], rowGet r₁ k = rowGet r₂ k) → r₁ = r₂ := by
    intro r₁ h₁ r₂ h₂ hagree
    fin_cases h₁ <;> fin_cases h₂
    · rfl
    · exact absurd (hagree "Name" (by decide)) (by decide)
    · exact absurd (hagree "Name" (by decide)) (by decide)
    · rfl
  refine ⟨(summary_sort_find_findAll wVars ["Name"] wTable).1 wRowB,
    (summary_sort_find_findAll wVars ["Name"] wTable).2.1 hvals hdist wRowA (by decide),
    (summary_sort_find_findAll wVars ["Name"] wTable).2.1 hvals hdist wRowB (by decide),
    (summary_sort_find_findAll wVars ["Name"] wTable).2.2 [("Name", "a")] "Name"
      (by decide) (by decide) (by decide)⟩

end ESBench
